import Mathlib

/-!
# dnsparser: a shallow embedding of `src/src/dnsparse.cpp`

The C++ parser is embedded as pure Lean functions.

* The buffer behind `const char *payload` is a `List Nat` (one element per byte);
  `payloadLen` is the separate `int` argument of the C++ code, an `Int` here.
* C `int` values are `Int`; `uint8_t`/`uint16_t` values are `Nat`, with the
  conversions of the C++ code written out (`% 65536` where an `int` is passed
  as the `uint16_t nameOffset`, `% 2 ^ 64` where the code computes in `size_t`).
* A read outside the buffer is the outcome `Run.fault` (undefined behaviour in
  C++); recursion that does not come back is the outcome `Run.nofuel` for every
  amount of fuel.
* The listener is taken to be present (`_listener != 0`); the calls it receives
  are collected, in order, in a list of `Notification`.
-/

namespace DnsParser

/-- Outcome of running a piece of the parser: it returned a value, it read
outside the buffer, or the recursion budget was used up. -/
inductive Run (α : Type) where
  | done (a : α)
  | fault
  | nofuel
  deriving DecidableEq, Repr

/-- Sequencing of two pieces of the parser: the first failure wins. -/
def Run.bind {α β : Type} : Run α → (α → Run β) → Run β
  | .done a, f => f a
  | .fault, _ => .fault
  | .nofuel, _ => .nofuel

/-- One call of the listener, `DnsParserListener::onDnsRec`, in its three overloads. -/
inductive Notification where
  | ipv4 (name : List Nat) (addr : List Nat)
  | ipv6 (name : List Nat) (addr : List Nat)
  | cname (name : List Nat) (cname : List Nat)
  deriving DecidableEq, Repr

/-- Read of one byte of the buffer, `((uint8_t*)payload)[i]`. -/
def byteAt (payload : List Nat) (i : Int) : Run Nat :=
  if 0 ≤ i then
    match payload[i.toNat]? with
    | some b => .done b
    | none => .fault
  else .fault

/-- Read of `n` consecutive bytes starting at `i`, the source of a `memcpy`. -/
def bytesAt (payload : List Nat) (i : Int) (n : Nat) : Run (List Nat) :=
  if 0 ≤ i ∧ i.toNat + n ≤ payload.length then
    .done ((payload.drop i.toNat).take n)
  else .fault

/-- The macro `U16S(_PAYLOAD, _INDEX)` applied to the pointer `payload + p`. -/
def U16S (payload : List Nat) (p index : Int) : Run Nat :=
  (byteAt payload (p + index)).bind fun hi =>
  (byteAt payload (p + index + 1)).bind fun lo =>
  .done ((hi <<< 8) + lo)

/-- The constant `DNS_FLAG_RESPONSE`. -/
def DNS_FLAG_RESPONSE : Nat := 0x8000

/-- The macro `DNS_FLAG_OPCODE(FLGS)`. -/
def DNS_FLAG_OPCODE (flgs : Nat) : Nat := (flgs >>> 11) &&& 0x0F

/-- The constant `MAX_STR_LEN`, the size of the buffer `tmp` of `dnsReadName`. -/
def MAX_STR_LEN : Nat := 128

/-- The constant `DNS_RECORD_TYPE_CNAME`. -/
def DNS_RECORD_TYPE_CNAME : Nat := 5

/-- The constant `DNS_RECORD_TYPE_A`. -/
def DNS_RECORD_TYPE_A : Nat := 1

/-- The constant `DNS_RECORD_TYPE_AAAA`. -/
def DNS_RECORD_TYPE_AAAA : Nat := 28

/-- The conversion in `uint16_t dotLen = *p`, where `*p` is a (signed) `char`
holding the byte `b`: bytes from 128 on are sign-extended. Where `char` is
unsigned the value differs for the bytes 128 to 255 only: from 192 on both
values pass the pointer test of line 96, and from 128 to 191 both fail it and
then leave the loop with -1, at line 107 or at line 117. -/
def charToU16 (b : Nat) : Nat := if b < 128 then b else b + 65280

/-- The character `'.'`. -/
def dot : Nat := 46

/-- The `while (p < end)` loop of `dnsReadName` (lines 94 to 128). `sub` is the
recursive call `dnsReadName(subStr, subOff, payload, payloadLen)` with an empty
`subStr`; `tmp` holds the `dest - tmp` bytes written to the buffer `tmp` so
far; the first argument bounds the number of iterations (each one advances `p`). -/
def nameLoop (sub : Nat → Run (Int × List Nat)) (payload : List Nat) (payloadLen : Int)
    (pstart : Int) (retstr : List Nat) : Nat → Int → List Nat → Run (Int × List Nat)
  | 0, p, _ => if p < payloadLen then .nofuel else .done (-1, retstr)
  | budget + 1, p, tmp =>
    if p < payloadLen then
      (byteAt payload p).bind fun b =>
      let dotLen := charToU16 b
      if dotLen &&& 0xc0 = 0xc0 then
        let retstr1 := if p > pstart then tmp.take (p - pstart - 1).toNat else retstr
        (byteAt payload (p + 1)).bind fun subOff =>
        (sub subOff).bind fun r =>
        let retstr2 := retstr1 ++ dot :: r.2
        .done ((retstr2.length : Int), retstr2)
      else if p + (dotLen : Int) ≥ payloadLen then .done (-1, retstr)
      else if dotLen = 0 then
        let retstr1 := if p > pstart then tmp.take (p - pstart - 1).toNat else retstr
        .done ((retstr1.length : Int), retstr1)
      else if tmp.length + dotLen + 1 ≥ MAX_STR_LEN then .done (-1, retstr)
      else
        let tmp1 := if tmp.length ≠ 0 then tmp ++ [dot] else tmp
        (bytesAt payload (p + 1) dotLen).bind fun label =>
        nameLoop sub payload payloadLen pstart retstr budget (p + 1 + (dotLen : Int)) (tmp1 ++ label)
    else .done (-1, retstr)

/-- The function `dnsReadName(retstr, nameOffset, payload, payloadLen)`: the
pair of its return value and of `retstr` on exit. The fuel bounds the depth of
the recursion through compression pointers. -/
def dnsReadName : Nat → List Nat → Nat → List Nat → Int → Run (Int × List Nat)
  | 0, _, _, _, _ => .nofuel
  | fuel + 1, retstr, nameOffset, payload, payloadLen =>
    if nameOffset = 0 ∨ (nameOffset : Int) ≥ payloadLen then .done (-1, retstr)
    else
      nameLoop (fun subOff => dnsReadName fuel [] subOff payload payloadLen) payload payloadLen
        (nameOffset : Int) retstr (payloadLen - (nameOffset : Int)).toNat (nameOffset : Int) []

/-- The name field of a record at `payload + p`, read the same way by both
section readers (lines 172 to 187 and 240 to 255): the triple of `nameLen`,
`name` and `fieldsOffset`. -/
def readRecordName (fuel : Nat) (payload : List Nat) (payloadLen : Int) (p : Int) :
    Run (Int × List Nat × Int) :=
  (U16S payload p 0).bind fun nm =>
  if nm &&& 0xc000 = 0xc000 then
    (dnsReadName fuel [] (nm &&& 0x3fff) payload payloadLen).bind fun r =>
    .done (r.1, r.2, 0)
  else
    (dnsReadName fuel [] (p % 65536).toNat payload payloadLen).bind fun r =>
    .done (r.1, r.2, r.1)

/-- The `while (numQueries > 0)` loop of `dnsReadQueries`, with the local `len`
and the notifications sent so far. -/
def queriesLoop (fuel : Nat) (payload : List Nat) (payloadLen : Int) (ptr remaining : Int)
    (emit : Bool) : Nat → Int → List Notification → Run (Int × List Notification)
  | 0, len, sink => .done (len, sink)
  | numQueries + 1, len, sink =>
    if remaining - len ≤ 6 then .done (-1, sink)
    else
      let p := ptr + len
      (readRecordName fuel payload payloadLen p).bind fun nm =>
      let nameLen := nm.1
      let name := nm.2.1
      let fieldsOffset := nm.2.2
      if nameLen ≤ 0 then .done (-1, sink)
      else
        (U16S payload p (fieldsOffset + 2)).bind fun type =>
        (U16S payload p (fieldsOffset + 4)).bind fun _cls =>
        let sink1 :=
          if type = DNS_RECORD_TYPE_A then
            (if emit then sink ++ [Notification.ipv4 name (List.replicate 4 0)] else sink)
          else if type = DNS_RECORD_TYPE_AAAA then
            (if emit then sink ++ [Notification.ipv6 name (List.replicate 16 0)] else sink)
          else sink
        queriesLoop fuel payload payloadLen ptr remaining emit numQueries
          (len + 6 + fieldsOffset) sink1

/-- The method `DnsParserImpl::dnsReadQueries`; `ptr` is the offset of the
pointer `ptr` from `payload`. -/
def dnsReadQueries (fuel : Nat) (payload : List Nat) (payloadLen : Int) (ptr remaining : Int)
    (numQueries : Nat) (emit : Bool) (sink : List Notification) :
    Run (Int × List Notification) :=
  queriesLoop fuel payload payloadLen ptr remaining emit numQueries 0 sink

/-- The `while (numAnswers > 0)` loop of `dnsReadAnswers`, with the local `len`
and the notifications sent so far. The comparison of line 266 is made in
`size_t` (64 bits); the local `firstName` is written and never read. -/
def answersLoop (fuel : Nat) (payload : List Nat) (payloadLen : Int) (ptr remaining : Int) :
    Nat → Int → List Notification → Run (Int × List Notification)
  | 0, len, sink => .done (len, sink)
  | numAnswers + 1, len, sink =>
    if remaining - len ≤ 12 then .done (-1, sink)
    else
      let p := ptr + len
      (readRecordName fuel payload payloadLen p).bind fun nm =>
      let nameLen := nm.1
      let name := nm.2.1
      let fieldsOffset := nm.2.2
      if nameLen ≤ 0 then .done (-1, sink)
      else
        (U16S payload p (fieldsOffset + 2)).bind fun type =>
        (U16S payload p (fieldsOffset + 4)).bind fun _cls =>
        (U16S payload p (fieldsOffset + 10)).bind fun datalen =>
        if (remaining - len - 12 - fieldsOffset) % (2 ^ 64 : Int) < (datalen : Int) then
          .done (-1, sink)
        else
          let next := len + 12 + fieldsOffset + (datalen : Int)
          if type = DNS_RECORD_TYPE_CNAME then
            (dnsReadName fuel [] ((p + 12) % 65536).toNat payload payloadLen).bind fun c =>
            answersLoop fuel payload payloadLen ptr remaining numAnswers next
              (sink ++ [Notification.cname name c.2])
          else if type = DNS_RECORD_TYPE_A then
            (bytesAt payload (p + 12 + fieldsOffset) 4).bind fun addr =>
            answersLoop fuel payload payloadLen ptr remaining numAnswers next
              (sink ++ [Notification.ipv4 name addr])
          else if type = DNS_RECORD_TYPE_AAAA then
            (bytesAt payload (p + 12 + fieldsOffset) 16).bind fun addr =>
            answersLoop fuel payload payloadLen ptr remaining numAnswers next
              (sink ++ [Notification.ipv6 name addr])
          else
            answersLoop fuel payload payloadLen ptr remaining numAnswers next sink

/-- The method `DnsParserImpl::dnsReadAnswers`; `ptr` is the offset of the
pointer `ptr` from `payload`. -/
def dnsReadAnswers (fuel : Nat) (payload : List Nat) (payloadLen : Int) (ptr remaining : Int)
    (numAnswers : Nat) (sink : List Notification) : Run (Int × List Notification) :=
  answersLoop fuel payload payloadLen ptr remaining numAnswers 0 sink

/-- The answer part of `parse` (lines 350 to 356), entered with the value of
`recordOffset` and the notifications sent so far. -/
def parseAnswers (fuel : Nat) (payload : List Nat) (payloadLen : Int) (recordOffset : Int)
    (numAnswers : Nat) (sink : List Notification) : Run (Int × List Notification) :=
  if numAnswers > 0 then
    (dnsReadAnswers fuel payload payloadLen recordOffset (payloadLen - recordOffset)
      numAnswers sink).bind fun r =>
    if r.1 < 0 then .done (-1, r.2)
    else if payloadLen - (recordOffset + r.1) < 0 then .done (-1, r.2)
    else .done (0, r.2)
  else .done (0, sink)

/-- The method `DnsParserImpl::parse`: the pair of its return value and of the
notifications the listener received, in order. -/
def parse (fuel : Nat) (payload : List Nat) (payloadLen : Int) :
    Run (Int × List Notification) :=
  if payloadLen < 12 then .done (-1, [])
  else
    (U16S payload 0 0).bind fun _txid =>
    (U16S payload 0 2).bind fun flags =>
    (U16S payload 0 4).bind fun numQueries =>
    (U16S payload 0 6).bind fun numAnswers =>
    if DNS_FLAG_OPCODE flags ≠ 0 then .done (-1, [])
    else
      let request : Bool := decide (flags &&& DNS_FLAG_RESPONSE = 0)
      if numQueries > 4 ∨ numAnswers > 20 then .done (-1, [])
      else
        let recordOffset : Int := 12
        if numQueries > 0 then
          (dnsReadQueries fuel payload payloadLen recordOffset (payloadLen - recordOffset)
            numQueries request []).bind fun r =>
          if r.1 < 0 then .done (-1, r.2)
          else if payloadLen - (recordOffset + r.1) < 0 then .done (-1, r.2)
          else parseAnswers fuel payload payloadLen (recordOffset + r.1) numAnswers r.2
        else parseAnswers fuel payload payloadLen recordOffset numAnswers []

/-! ## Wire encodings used to state the properties -/

/-- Labels on the wire: each preceded by its length byte. -/
def encLabels (labels : List (List Nat)) : List Nat :=
  labels.flatMap fun l => l.length :: l

/-- An inline name on the wire: the length-prefixed labels and the zero byte. -/
def encName (labels : List (List Nat)) : List Nat :=
  encLabels labels ++ [0]

/-- The text of a name: its labels joined by `'.'`. -/
def joinDot (labels : List (List Nat)) : List Nat :=
  [dot].intercalate labels

/-- The labels of the name `example.com`. -/
def exampleLabels : List (List Nat) :=
  [[101, 120, 97, 109, 112, 108, 101], [99, 111, 109]]

/-- A response header: transaction id 0x1234, flags 0x8180, no query, one answer. -/
def exampleHdr : List Nat := [0x12, 0x34, 0x81, 0x80, 0, 0, 0, 1, 0, 0, 0, 0]

/-- The fixed fields and RDATA of an A record: class IN, TTL 60, address 93.184.216.34. -/
def exampleTail : List Nat := [0, 1, 0, 1, 0, 0, 0, 60, 0, 4, 93, 184, 216, 34]

/-- A response with two answers: a CNAME record with the inline owner name `a`
and the target `b` in its RDATA (offset 25), then an A record whose name is a
compression pointer to offset 25, with address 1.2.3.4. -/
def cnameInlineMsg : List Nat :=
  [0, 1, 0x81, 0x80, 0, 0, 0, 2, 0, 0, 0, 0,
   1, 97, 0, 0, 5, 0, 1, 0, 0, 0, 60, 0, 3, 1, 98, 0,
   0xC0, 25, 0, 1, 0, 1, 0, 0, 0, 60, 0, 4, 1, 2, 3, 4]

/-- A request with one A query whose name is the label `a` followed by a
compression pointer to offset 0. -/
def pointerToZeroMsg : List Nat :=
  [0, 1, 0x01, 0x00, 0, 1, 0, 0, 0, 0, 0, 0,
   1, 97, 0xC0, 0x00, 0, 1, 0, 1]

/-- A request with one A query whose name is the label `a` followed by a
compression pointer to offset 255, beyond the 20 bytes of the payload. -/
def pointerBeyondMsg : List Nat :=
  [0, 1, 0x01, 0x00, 0, 1, 0, 0, 0, 0, 0, 0,
   1, 97, 0xC0, 0xFF, 0, 1, 0, 1]

/-- A request with one query whose name, at offset 12, is a compression pointer
to offset 12. -/
def selfPointerMsg : List Nat :=
  [0, 1, 0x01, 0x00, 0, 1, 0, 0, 0, 0, 0, 0,
   0xC0, 0x0C, 0, 1, 0, 1, 0]

/-- A response with one A record, owner `a`, whose declared RDATA length is 5. -/
def aLen5Msg : List Nat :=
  [0, 1, 0x81, 0x80, 0, 0, 0, 1, 0, 0, 0, 0,
   1, 97, 0, 0, 1, 0, 1, 0, 0, 0, 60, 0, 5, 1, 2, 3, 4, 5]

/-- A response with one A record, owner `a`, whose declared RDATA length is 2
and whose 2 RDATA bytes end the payload. -/
def aLen2Msg : List Nat :=
  [0, 1, 0x81, 0x80, 0, 0, 0, 1, 0, 0, 0, 0,
   1, 97, 0, 0, 1, 0, 1, 0, 0, 0, 60, 0, 2, 9, 9]

/-- A response with the query `a` and one CNAME record, owner a pointer to
offset 12, whose 2 RDATA bytes (offset 31) announce a label of 5 bytes that the
payload does not hold. -/
def cnameBadTargetMsg : List Nat :=
  [0, 1, 0x81, 0x80, 0, 1, 0, 1, 0, 0, 0, 0,
   1, 97, 0, 0, 1, 0, 1,
   0xC0, 0x0C, 0, 5, 0, 1, 0, 0, 0, 60, 0, 2, 5, 98]

/-- A buffer of 30 bytes holding a response with one A record, owner `ab`:
the first 25 bytes end in the middle of the RDLENGTH field (its high byte is at
index 24); the bytes after them give an RDLENGTH of 4 and the address 9.9.9.9. -/
def truncFieldsBuf : List Nat :=
  [0, 1, 0x81, 0x80, 0, 0, 0, 1, 0, 0, 0, 0,
   2, 97, 98, 0, 0, 1, 0, 1, 0, 0, 0, 60, 0,
   4, 9, 9, 9, 9]

/-- A request of 19 bytes with one query whose inline name `abcde` ends the payload. -/
def nameAtEndMsg : List Nat :=
  [0, 1, 0x01, 0x00, 0, 1, 0, 0, 0, 0, 0, 0,
   5, 97, 98, 99, 100, 101, 0]

/-- A request of 19 bytes with one query whose name is `a.b.c` followed by the
first byte of a compression pointer, the last byte of the payload. -/
def pointerAtEndMsg : List Nat :=
  [0, 1, 0x01, 0x00, 0, 1, 0, 0, 0, 0, 0, 0,
   1, 97, 1, 98, 1, 99, 0xC0]

/-- A request of 279 bytes with one query: its name (offset 12) is the label
`a` followed by the compression pointer `c1 14`, whose low 14 bits are 276;
the name `b` stands at offset 20, the pointer `c0 14` at offset 23 and the
name `c` at offset 276. -/
def pointer14Msg : List Nat :=
  [0, 1, 0x01, 0x00, 0, 1, 0, 0, 0, 0, 0, 0,
   1, 97, 0xC1, 0x14, 0, 0, 1, 0, 1, 98, 0, 0xC0, 0x14] ++
  List.replicate 251 0 ++ [1, 99, 0]

/-- A request of 23 bytes with one query: the name `a` followed by a
compression pointer to offset 20 (4 bytes on the wire), then type A and class
IN, then the name `b` at offset 20. -/
def labelsPointerMsg : List Nat :=
  [0, 1, 0x01, 0x00, 0, 1, 0, 0, 0, 0, 0, 0,
   1, 97, 0xC0, 20, 0, 1, 0, 1, 1, 98, 0]

/-- A request of 25 bytes with two A queries: the name `a`, then a compression
pointer to offset 12 with type and class in the last 6 bytes of the payload. -/
def lastQueryExactMsg : List Nat :=
  [0, 1, 0x01, 0x00, 0, 2, 0, 0, 0, 0, 0, 0,
   1, 97, 0, 0, 1, 0, 1,
   0xC0, 0x0C, 0, 1, 0, 1]

/-- A response of 31 bytes with the query `a` and one answer: a record named by
a compression pointer to offset 12, of type A and RDATA length 0, in the last
12 bytes of the payload. -/
def lastAnswerExactMsg : List Nat :=
  [0, 1, 0x81, 0x80, 0, 1, 0, 1, 0, 0, 0, 0,
   1, 97, 0, 0, 1, 0, 1,
   0xC0, 0x0C, 0, 1, 0, 1, 0, 0, 0, 60, 0, 0]

/-- A request of 35 bytes with the A query `a` and one A record named by a
compression pointer to offset 12, with address 1.2.3.4. -/
def bothSectionsMsg : List Nat :=
  [0, 1, 0x01, 0x00, 0, 1, 0, 1, 0, 0, 0, 0,
   1, 97, 0, 0, 1, 0, 1,
   0xC0, 0x0C, 0, 1, 0, 1, 0, 0, 0, 60, 0, 4, 1, 2, 3, 4]

/-- A request of 19 bytes with one A query whose name is the single zero byte. -/
def rootInlineMsg : List Nat :=
  [0, 1, 0x01, 0x00, 0, 1, 0, 0, 0, 0, 0, 0,
   0, 0, 1, 0, 1, 0, 0]

/-- A response of 28 bytes with no query and one A record whose name is a
compression pointer to offset 11, a zero byte. -/
def rootPointerMsg : List Nat :=
  [0, 1, 0x81, 0x80, 0, 0, 0, 1, 0, 0, 0, 0,
   0xC0, 0x0B, 0, 1, 0, 1, 0, 0, 0, 60, 0, 4, 1, 2, 3, 4]

/-- The big-endian 16-bit word at index `i` of the buffer (zero beyond its end). -/
def word16 (payload : List Nat) (i : Nat) : Nat :=
  (payload.getD i 0 <<< 8) + payload.getD (i + 1) 0

/-! ## Basic facts about the reads -/

@[simp] theorem Run.bind_done {α β : Type} (a : α) (f : α → Run β) :
    (Run.done a).bind f = f a := rfl

@[simp] theorem Run.bind_fault {α β : Type} (f : α → Run β) :
    (Run.fault : Run α).bind f = Run.fault := rfl

@[simp] theorem Run.bind_nofuel {α β : Type} (f : α → Run β) :
    (Run.nofuel : Run α).bind f = Run.nofuel := rfl

theorem byteAt_of_lt (payload : List Nat) (i : Nat) (h : i < payload.length) :
    byteAt payload (i : Int) = .done (payload.getD i 0) := by
  simp [byteAt, List.getElem?_eq_getElem h, List.getD_eq_getElem?_getD]

theorem byteAt_mid (payload pre post : List Nat) (b : Nat) (i : Int)
    (hp : payload = pre ++ b :: post) (hi : i = pre.length) :
    byteAt payload i = .done b := by
  subst hi hp
  have h : (pre ++ b :: post)[pre.length]? = some b := by
    rw [List.getElem?_append_right (le_refl _)]
    simp
  simp [byteAt, h]

theorem bytesAt_mid (payload pre l post : List Nat) (i : Int) (n : Nat)
    (hp : payload = pre ++ l ++ post) (hi : i = pre.length) (hn : n = l.length) :
    bytesAt payload i n = .done l := by
  subst hi hn hp
  have h : ((pre.length : Int).toNat) = pre.length := by simp
  simp only [bytesAt, h]
  rw [if_pos]
  · simp [List.append_assoc, List.drop_append_eq_append_drop]
  · simp [List.length_append]

theorem U16S_of_lt (payload : List Nat) (i : Nat) (h : i + 1 < payload.length) :
    U16S payload 0 (i : Int) = .done (word16 payload i) := by
  have h0 : (0 : Int) + (i : Int) = ((i : Nat) : Int) := by simp
  have h1 : (i : Int) + 1 = ((i + 1 : Nat) : Int) := by push_cast; ring
  simp only [U16S, h0, h1]
  rw [byteAt_of_lt payload i (by omega), byteAt_of_lt payload (i + 1) h]
  rfl

/-! ## Inline names -/

theorem encLabels_nil : encLabels [] = [] := rfl

theorem encLabels_cons (l : List Nat) (ls : List (List Nat)) :
    encLabels (l :: ls) = l.length :: l ++ encLabels ls := by
  simp [encLabels]

theorem encLabels_append (xs ys : List (List Nat)) :
    encLabels (xs ++ ys) = encLabels xs ++ encLabels ys := by
  simp [encLabels]

theorem joinDot_cons_cons (a b : List Nat) (ls : List (List Nat)) :
    joinDot (a :: b :: ls) = a ++ dot :: joinDot (b :: ls) := by
  simp [joinDot, List.intercalate, List.intersperse]

theorem joinDot_length (ls : List (List Nat)) :
    (joinDot ls).length = (encLabels ls).length - 1 := by
  induction ls with
  | nil => rfl
  | cons a t ih =>
    cases t with
    | nil => simp [joinDot, List.intercalate, encLabels]
    | cons b t =>
      rw [joinDot_cons_cons, encLabels_cons, List.length_append, List.length_cons, ih,
        encLabels_cons]
      simp only [List.length_cons, List.length_append]
      omega

theorem joinDot_snoc (d : List (List Nat)) (l : List Nat) (hd : ∀ x ∈ d, 1 ≤ x.length) :
    joinDot (d ++ [l]) =
      (if (joinDot d).length ≠ 0 then joinDot d ++ [dot] else joinDot d) ++ l := by
  induction d with
  | nil => simp [joinDot, List.intercalate]
  | cons a t ih =>
    have ha : 1 ≤ a.length := hd a (List.mem_cons_self _ _)
    cases t with
    | nil =>
      have h1 : (joinDot [a]).length ≠ 0 := by
        rw [joinDot_length, encLabels_cons]
        simp only [List.length_cons, List.length_append]; omega
      rw [if_pos h1]
      simp [joinDot, List.intercalate, List.intersperse]
    | cons b t =>
      have hb : 1 ≤ b.length := hd b (by simp)
      have ih1 := ih (fun x hx => hd x (List.mem_cons_of_mem _ hx))
      have h1 : (joinDot (b :: t)).length ≠ 0 := by
        rw [joinDot_length, encLabels_cons]
        simp only [List.length_cons, List.length_append]; omega
      have h2 : (joinDot (a :: b :: t)).length ≠ 0 := by
        rw [joinDot_length, encLabels_cons]
        simp only [List.length_cons, List.length_append]; omega
      rw [if_pos h1, List.cons_append] at ih1
      rw [if_pos h2, List.cons_append, List.cons_append, joinDot_cons_cons, ih1,
        joinDot_cons_cons]
      simp [List.append_assoc]

theorem land_c0_of_lt (n : Nat) (h : n < 64) : ¬ (n &&& 0xc0 = 0xc0) := by
  have := Nat.and_le_left (n := n) (m := 0xc0)
  omega

theorem charToU16_of_lt (n : Nat) (h : n < 128) : charToU16 n = n := by
  simp [charToU16, h]

/-- The loop of `dnsReadName` over inline labels: entered at the length byte of
the first label of `rest`, with the text of the labels `done` in `tmp`, it
leaves with the text of all the labels. -/
theorem nameLoop_inline (sub : Nat → Run (Int × List Nat)) (payload : List Nat)
    (payloadLen pstart : Int) (retstr : List Nat) :
    ∀ (rest done : List (List Nat)) (pre post : List Nat) (budget : Nat),
      payload = pre ++ encLabels rest ++ 0 :: post →
      (pre.length : Int) + (encLabels rest).length + 1 ≤ payloadLen →
      (encLabels rest).length + 1 ≤ budget →
      (∀ l ∈ done ++ rest, 1 ≤ l.length ∧ l.length ≤ 63) →
      (joinDot (done ++ rest)).length ≤ 126 →
      (pre.length : Int) = pstart + (encLabels done).length →
      nameLoop sub payload payloadLen pstart retstr budget pre.length (joinDot done) =
        .done (if done ++ rest = [] then ((retstr.length : Int), retstr)
               else (((joinDot (done ++ rest)).length : Int), joinDot (done ++ rest))) := by
  intro rest
  induction rest with
  | nil =>
    intro done pre post budget hp hlen hb hlab hjoin hpre
    obtain ⟨b, rfl⟩ : ∃ b, budget = b + 1 := ⟨budget - 1, by omega⟩
    simp only [encLabels, List.flatMap_nil, List.append_nil, List.length_nil, Nat.cast_zero,
      add_zero] at hp hlen
    rw [nameLoop, if_pos (by omega), byteAt_mid payload pre post 0 _ hp rfl]
    simp only [Run.bind_done, charToU16_of_lt 0 (by omega)]
    rw [if_neg (by decide), if_neg (by omega), if_pos trivial]
    simp only [List.append_nil]
    by_cases hd : done = []
    · subst hd
      simp only [encLabels, List.flatMap_nil, List.length_nil, Nat.cast_zero, add_zero] at hpre
      simp [hpre]
    · have hne : 1 ≤ (encLabels done).length := by
        cases done with
        | nil => exact absurd rfl hd
        | cons a t => rw [encLabels_cons]; simp
      have hj := joinDot_length done
      have ht : ((pre.length : Int) - pstart - 1).toNat = (joinDot done).length := by omega
      rw [if_pos (by omega), if_neg hd, ht, List.take_length]
  | cons l rest ih =>
    intro done pre post budget hp hlen hb hlab hjoin hpre
    obtain ⟨b, rfl⟩ : ∃ b, budget = b + 1 := ⟨budget - 1, by omega⟩
    have hl : 1 ≤ l.length ∧ l.length ≤ 63 := hlab l (by simp)
    have hdone : ∀ x ∈ done, 1 ≤ x.length := fun x hx => (hlab x (by simp [hx])).1
    have e1 : byteAt payload (pre.length : Int) = .done l.length :=
      byteAt_mid payload pre (l ++ encLabels rest ++ 0 :: post) _ _
        (by rw [hp, encLabels_cons]; simp) rfl
    have e2 : bytesAt payload ((pre.length : Int) + 1) l.length = .done l :=
      bytesAt_mid payload (pre ++ [l.length]) l (encLabels rest ++ 0 :: post) _ _
        (by rw [hp, encLabels_cons]; simp) (by simp) rfl
    have hj1 := joinDot_length done
    have hj2 := joinDot_length (done ++ l :: rest)
    rw [encLabels_append, encLabels_cons] at hj2
    rw [encLabels_cons] at hlen hb
    simp only [List.length_cons, List.length_append] at hj2 hlen hb
    rw [nameLoop, if_pos (by omega), e1]
    simp only [Run.bind_done, charToU16_of_lt l.length (by omega)]
    rw [if_neg (land_c0_of_lt _ (by omega)), if_neg (by omega), if_neg (by omega),
      if_neg (by simp only [MAX_STR_LEN]; omega), e2]
    simp only [Run.bind_done]
    have hs := joinDot_snoc done l hdone
    have hpos : (pre.length : Int) + 1 + (l.length : Int) =
        ((pre ++ l.length :: l).length : Int) := by
      simp only [List.length_cons, List.length_append]; push_cast; ring
    have hrest : done ++ l :: rest = (done ++ [l]) ++ rest := by simp
    rw [← hs, hpos, hrest]
    apply ih (done ++ [l]) (pre ++ l.length :: l) post b
    · rw [hp, encLabels_cons]; simp
    · simp only [List.length_cons, List.length_append]; push_cast; omega
    · omega
    · rw [← hrest]; exact hlab
    · rw [← hrest]; exact hjoin
    · rw [encLabels_append, encLabels_cons, encLabels_nil]
      simp only [List.length_cons, List.length_append, List.length_nil]
      push_cast; omega

theorem encName_length (labels : List (List Nat)) :
    (encName labels).length = (encLabels labels).length + 1 := by
  simp [encName]

theorem encLabels_length_pos (labels : List (List Nat)) (hne : labels ≠ [])
    (hlab : ∀ l ∈ labels, 1 ≤ l.length ∧ l.length ≤ 63) : 2 ≤ (encLabels labels).length := by
  cases labels with
  | nil => exact absurd rfl hne
  | cons a t =>
    have := (hlab a (by simp)).1
    rw [encLabels_cons]
    simp only [List.length_cons, List.length_append]
    omega

/-- An inline name read by `dnsReadName`: the text is the labels joined by dots
and the return value is its length. -/
theorem dnsReadName_inline_eq (fuel : Nat) (retstr : List Nat) (labels : List (List Nat))
    (payload pre post : List Nat) (k : Nat) (payloadLen : Int)
    (hp : payload = pre ++ encName labels ++ post) (hk : k = pre.length)
    (hne : labels ≠ [])
    (hlab : ∀ l ∈ labels, 1 ≤ l.length ∧ l.length ≤ 63)
    (hjoin : (joinDot labels).length ≤ 126)
    (hk1 : 1 ≤ k)
    (hin : (k : Int) + (encName labels).length ≤ payloadLen) :
    dnsReadName (fuel + 1) retstr k payload payloadLen =
      .done (((joinDot labels).length : Int), joinDot labels) := by
  subst hk
  have h2 := encLabels_length_pos labels hne hlab
  rw [encName_length] at hin
  rw [dnsReadName, if_neg (by omega)]
  have h := nameLoop_inline (fun subOff => dnsReadName fuel [] subOff payload payloadLen)
    payload payloadLen (pre.length : Int) retstr labels [] pre post
    (payloadLen - (pre.length : Int)).toNat
    (by rw [hp, encName]; simp) (by omega) (by omega) (by simpa using hlab)
    (by simpa using hjoin) (by simp [encLabels_nil])
  simp only [List.nil_append] at h
  rw [if_neg hne] at h
  exact h

theorem U16S_mid (payload pre post : List Nat) (hi lo : Nat) (p index : Int)
    (hp : payload = pre ++ hi :: lo :: post) (hpos : p + index = pre.length) :
    U16S payload p index = .done ((hi <<< 8) + lo) := by
  have e1 : byteAt payload (p + index) = .done hi := byteAt_mid payload pre (lo :: post) hi _ hp hpos
  have e2 : byteAt payload (p + index + 1) = .done lo :=
    byteAt_mid payload (pre ++ [hi]) post lo _ (by rw [hp]; simp) (by rw [hpos]; simp)
  simp only [U16S, e1, e2, Run.bind_done]

/-- The first two bytes of an inline name do not look like a compression pointer. -/
theorem encName_head (labels : List (List Nat)) (hne : labels ≠ [])
    (hlab : ∀ l ∈ labels, 1 ≤ l.length ∧ l.length ≤ 63)
    (hbytes : ∀ l ∈ labels, ∀ b ∈ l, b < 256) :
    ∃ hi lo tl, encName labels = hi :: lo :: tl ∧ ¬ (((hi <<< 8) + lo) &&& 0xc000 = 0xc000) := by
  cases labels with
  | nil => exact absurd rfl hne
  | cons a t =>
    have ha := hlab a (by simp)
    cases a with
    | nil => simp at ha
    | cons b a =>
      have hb : b < 256 := hbytes (b :: a) (by simp) b (by simp)
      refine ⟨(b :: a).length, b, a ++ encLabels t ++ [0], ?_, ?_⟩
      · simp [encName, encLabels_cons]
      · have h1 := Nat.and_le_left (n := ((b :: a).length <<< 8) + b) (m := 0xc000)
        rw [Nat.shiftLeft_eq] at h1 ⊢
        omega

/-- The name field of a record whose name is inline, as both section readers
read it: `nameLen` and `fieldsOffset` are the length of the text. -/
theorem readRecordName_inline (fuel : Nat) (labels : List (List Nat))
    (payload pre post : List Nat) (p payloadLen : Int)
    (hp : payload = pre ++ encName labels ++ post) (hpos : p = pre.length)
    (hne : labels ≠ [])
    (hlab : ∀ l ∈ labels, 1 ≤ l.length ∧ l.length ≤ 63)
    (hbytes : ∀ l ∈ labels, ∀ b ∈ l, b < 256)
    (hjoin : (joinDot labels).length ≤ 126)
    (hk1 : 1 ≤ pre.length) (hk2 : pre.length < 65536)
    (hin : p + (encName labels).length ≤ payloadLen) :
    readRecordName (fuel + 1) payload payloadLen p =
      .done (((joinDot labels).length : Int), joinDot labels, ((joinDot labels).length : Int)) := by
  obtain ⟨hi, lo, tl, he, hptr⟩ := encName_head labels hne hlab hbytes
  have e1 : U16S payload p 0 = .done ((hi <<< 8) + lo) :=
    U16S_mid payload pre (tl ++ post) hi lo p 0 (by rw [hp, he]; simp) (by rw [hpos]; simp)
  have hmod : (p % 65536).toNat = pre.length := by rw [hpos]; omega
  have e2 := dnsReadName_inline_eq fuel [] labels payload pre post pre.length payloadLen hp rfl
    hne hlab hjoin hk1 (by rw [← hpos]; exact hin)
  simp only [readRecordName, e1, Run.bind_done, if_neg hptr, hmod, e2]

/-- On a failure (-1) `dnsReadName` leaves the loop without touching `retstr`. -/
theorem nameLoop_err (sub : Nat → Run (Int × List Nat)) (payload : List Nat)
    (payloadLen pstart : Int) (retstr : List Nat) :
    ∀ (budget : Nat) (p : Int) (tmp s : List Nat),
      nameLoop sub payload payloadLen pstart retstr budget p tmp = .done (-1, s) → s = retstr := by
  intro budget
  induction budget with
  | zero =>
    intro p tmp s h
    rw [nameLoop] at h
    split at h
    · exact absurd h (by simp)
    · injection h with h; injection h with _ h; exact h.symm
  | succ b ih =>
    intro p tmp s h
    rw [nameLoop] at h
    split at h
    · cases hb : byteAt payload p with
      | fault => rw [hb] at h; exact absurd h (by simp)
      | nofuel => rw [hb] at h; exact absurd h (by simp)
      | done v =>
        rw [hb] at h
        simp only [Run.bind_done] at h
        split at h
        · cases hc : byteAt payload (p + 1) with
          | fault => rw [hc] at h; exact absurd h (by simp)
          | nofuel => rw [hc] at h; exact absurd h (by simp)
          | done o =>
            rw [hc] at h
            simp only [Run.bind_done] at h
            cases hs : sub o with
            | fault => rw [hs] at h; exact absurd h (by simp)
            | nofuel => rw [hs] at h; exact absurd h (by simp)
            | done r =>
              rw [hs] at h
              simp only [Run.bind_done] at h
              injection h with h; injection h with h _
              omega
        · split at h
          · injection h with h; injection h with _ h; exact h.symm
          · split at h
            · injection h with h; injection h with h _
              omega
            · split at h
              · injection h with h; injection h with _ h; exact h.symm
              · cases hl : bytesAt payload (p + 1) (charToU16 v) with
                | fault => rw [hl] at h; exact absurd h (by simp)
                | nofuel => rw [hl] at h; exact absurd h (by simp)
                | done lab =>
                  rw [hl] at h
                  exact ih _ _ _ h
    · injection h with h; injection h with _ h; exact h.symm

theorem dnsReadName_err (fuel : Nat) (retstr : List Nat) (nameOffset : Nat)
    (payload : List Nat) (payloadLen : Int) (s : List Nat)
    (h : dnsReadName fuel retstr nameOffset payload payloadLen = .done (-1, s)) : s = retstr := by
  cases fuel with
  | zero => exact absurd h (by simp [dnsReadName])
  | succ n =>
    rw [dnsReadName] at h
    split at h
    · injection h with h; injection h with _ h; exact h.symm
    · exact nameLoop_err _ _ _ _ _ _ _ _ _ h

theorem byteAt_ne_nofuel (payload : List Nat) (i : Int) : byteAt payload i ≠ .nofuel := by
  unfold byteAt
  split
  · split
    · intro h; cases h
    · intro h; cases h
  · intro h; cases h

theorem bytesAt_ne_nofuel (payload : List Nat) (i : Int) (n : Nat) :
    bytesAt payload i n ≠ .nofuel := by
  unfold bytesAt
  split
  · intro h; cases h
  · intro h; cases h

/-- The iteration bound of `nameLoop` is never the reason for `nofuel`: started
with a bound of at least `payloadLen - p`, the loop gives `nofuel` only when a
recursive call does. -/
theorem nameLoop_nofuel (sub : Nat → Run (Int × List Nat)) (payload : List Nat)
    (payloadLen pstart : Int) (retstr : List Nat) :
    ∀ (budget : Nat) (p : Int) (tmp : List Nat), (payloadLen - p).toNat ≤ budget →
      nameLoop sub payload payloadLen pstart retstr budget p tmp = .nofuel →
      ∃ off, sub off = .nofuel := by
  intro budget
  induction budget with
  | zero =>
    intro p tmp hb h
    rw [nameLoop, if_neg (by omega)] at h
    exact absurd h (by simp)
  | succ b ih =>
    intro p tmp hb h
    rw [nameLoop] at h
    split at h
    · cases hv : byteAt payload p with
      | fault => rw [hv] at h; exact absurd h (by simp)
      | nofuel => exact absurd hv (byteAt_ne_nofuel _ _)
      | done v =>
        rw [hv] at h
        simp only [Run.bind_done] at h
        split at h
        · cases hc : byteAt payload (p + 1) with
          | fault => rw [hc] at h; exact absurd h (by simp)
          | nofuel => exact absurd hc (byteAt_ne_nofuel _ _)
          | done o =>
            rw [hc] at h
            simp only [Run.bind_done] at h
            cases hs : sub o with
            | fault => rw [hs] at h; exact absurd h (by simp)
            | nofuel => exact ⟨o, hs⟩
            | done r => rw [hs] at h; exact absurd h (by simp)
        · split at h
          · exact absurd h (by simp)
          · split at h
            · exact absurd h (by simp)
            · split at h
              · exact absurd h (by simp)
              · cases hl : bytesAt payload (p + 1) (charToU16 v) with
                | fault => rw [hl] at h; exact absurd h (by simp)
                | nofuel => exact absurd hl (bytesAt_ne_nofuel _ _ _)
                | done lab =>
                  rw [hl] at h
                  exact ih _ _ (by omega) h
    · exact absurd h (by simp)

/-- A name that is a compression pointer to itself: the recursion of
`dnsReadName` does not come back, whatever the fuel. -/
theorem dnsReadName_self_pointer (fuel : Nat) :
    dnsReadName fuel [] 12 selfPointerMsg 19 = .nofuel := by
  induction fuel with
  | zero => rfl
  | succ n ih =>
    have step : dnsReadName (n + 1) [] 12 selfPointerMsg 19 =
        (dnsReadName n [] 12 selfPointerMsg 19).bind fun r =>
          .done ((([] ++ dot :: r.2 : List Nat).length : Int), [] ++ dot :: r.2) := rfl
    rw [step, ih]
    rfl

/-- The four header reads of `parse` succeed when the buffer holds 12 bytes. -/
theorem parse_header_eq (fuel : Nat) (payload : List Nat) (payloadLen : Int)
    (hlen : 12 ≤ payloadLen) (hbuf : payloadLen ≤ payload.length) :
    parse fuel payload payloadLen =
      if DNS_FLAG_OPCODE (word16 payload 2) ≠ 0 then .done (-1, [])
      else if word16 payload 4 > 4 ∨ word16 payload 6 > 20 then .done (-1, [])
      else if word16 payload 4 > 0 then
        (dnsReadQueries fuel payload payloadLen 12 (payloadLen - 12) (word16 payload 4)
          (decide (word16 payload 2 &&& DNS_FLAG_RESPONSE = 0)) []).bind fun r =>
        if r.1 < 0 then .done (-1, r.2)
        else if payloadLen - (12 + r.1) < 0 then .done (-1, r.2)
        else parseAnswers fuel payload payloadLen (12 + r.1) (word16 payload 6) r.2
      else parseAnswers fuel payload payloadLen 12 (word16 payload 6) [] := by
  have hl : 12 ≤ payload.length := by omega
  have e0 := U16S_of_lt payload 0 (by omega)
  have e2 := U16S_of_lt payload 2 (by omega)
  have e4 := U16S_of_lt payload 4 (by omega)
  have e6 := U16S_of_lt payload 6 (by omega)
  simp only [Nat.cast_ofNat, Nat.cast_zero] at e0 e2 e4 e6
  unfold parse
  rw [if_neg (by omega), e0, e2, e4, e6]
  simp only [Run.bind_done]

/-! ## The working buffer of `dnsReadName` -/

theorem readRecordName_fieldsOffset (fuel : Nat) (payload : List Nat) (payloadLen p : Int)
    (nm : Int × List Nat × Int) (h : readRecordName fuel payload payloadLen p = .done nm) :
    nm.2.2 = 0 ∨ nm.2.2 = nm.1 := by
  unfold readRecordName at h
  cases hu : U16S payload p 0 with
  | fault => rw [hu] at h; cases h
  | nofuel => rw [hu] at h; cases h
  | done w =>
    rw [hu] at h
    simp only [Run.bind_done] at h
    split at h
    · cases hd : dnsReadName fuel [] (w &&& 0x3fff) payload payloadLen with
      | fault => rw [hd] at h; cases h
      | nofuel => rw [hd] at h; cases h
      | done r =>
        rw [hd] at h
        simp only [Run.bind_done] at h
        injection h with h
        subst h
        exact Or.inl rfl
    · cases hd : dnsReadName fuel [] (p % 65536).toNat payload payloadLen with
      | fault => rw [hd] at h; cases h
      | nofuel => rw [hd] at h; cases h
      | done r =>
        rw [hd] at h
        simp only [Run.bind_done] at h
        injection h with h
        subst h
        exact Or.inr rfl

/-- One iteration of the loop of `dnsReadAnswers`: it returns -1 with the sink
as it was, or it does not return, or it goes on to the next record with `len`
advanced by at least 12 and at most one notification more. -/
theorem answersLoop_cases (fuel : Nat) (payload : List Nat) (payloadLen ptr remaining : Int)
    (len : Int) (sink : List Notification) :
    (∀ n, answersLoop fuel payload payloadLen ptr remaining (n + 1) len sink =
        .done (-1, sink)) ∨
      (∀ n, answersLoop fuel payload payloadLen ptr remaining (n + 1) len sink = .fault) ∨
      (∀ n, answersLoop fuel payload payloadLen ptr remaining (n + 1) len sink = .nofuel) ∨
      (12 < remaining - len ∧ ∃ next x, len + 12 ≤ next ∧ x.length ≤ 1 ∧
        ∀ n, answersLoop fuel payload payloadLen ptr remaining (n + 1) len sink =
          answersLoop fuel payload payloadLen ptr remaining n next (sink ++ x)) := by
  by_cases h1 : remaining - len ≤ 12
  · left; intro n; rw [answersLoop, if_pos h1]
  cases hr : readRecordName fuel payload payloadLen (ptr + len) with
  | fault => right; left; intro n; simp only [answersLoop, if_neg h1, hr, Run.bind_fault]
  | nofuel => right; right; left; intro n; simp only [answersLoop, if_neg h1, hr, Run.bind_nofuel]
  | done nm =>
    have hfo := readRecordName_fieldsOffset _ _ _ _ _ hr
    by_cases h2 : nm.1 ≤ 0
    · left; intro n; simp only [answersLoop, if_neg h1, hr, Run.bind_done, if_pos h2]
    cases ht : U16S payload (ptr + len) (nm.2.2 + 2) with
    | fault =>
      right; left; intro n
      simp only [answersLoop, if_neg h1, hr, Run.bind_done, if_neg h2, ht, Run.bind_fault]
    | nofuel =>
      right; right; left; intro n
      simp only [answersLoop, if_neg h1, hr, Run.bind_done, if_neg h2, ht, Run.bind_nofuel]
    | done type =>
    cases hc : U16S payload (ptr + len) (nm.2.2 + 4) with
    | fault =>
      right; left; intro n
      simp only [answersLoop, if_neg h1, hr, Run.bind_done, if_neg h2, ht, hc, Run.bind_fault]
    | nofuel =>
      right; right; left; intro n
      simp only [answersLoop, if_neg h1, hr, Run.bind_done, if_neg h2, ht, hc, Run.bind_nofuel]
    | done cls =>
    cases hd : U16S payload (ptr + len) (nm.2.2 + 10) with
    | fault =>
      right; left; intro n
      simp only [answersLoop, if_neg h1, hr, Run.bind_done, if_neg h2, ht, hc, hd,
        Run.bind_fault]
    | nofuel =>
      right; right; left; intro n
      simp only [answersLoop, if_neg h1, hr, Run.bind_done, if_neg h2, ht, hc, hd,
        Run.bind_nofuel]
    | done datalen =>
    by_cases h3 : (remaining - len - 12 - nm.2.2) % (2 ^ 64 : Int) < (datalen : Int)
    · left; intro n
      simp only [answersLoop, if_neg h1, hr, Run.bind_done, if_neg h2, ht, hc, hd, if_pos h3]
    have hnext : len + 12 ≤ len + 12 + nm.2.2 + (datalen : Int) := by omega
    by_cases t5 : type = DNS_RECORD_TYPE_CNAME
    · cases hn : dnsReadName fuel [] ((ptr + len + 12) % 65536).toNat payload payloadLen with
      | fault =>
        right; left; intro n
        simp only [answersLoop, if_neg h1, hr, Run.bind_done, if_neg h2, ht, hc, hd, if_neg h3,
          if_pos t5, hn, Run.bind_fault]
      | nofuel =>
        right; right; left; intro n
        simp only [answersLoop, if_neg h1, hr, Run.bind_done, if_neg h2, ht, hc, hd, if_neg h3,
          if_pos t5, hn, Run.bind_nofuel]
      | done c =>
        right; right; right
        refine ⟨by omega, _, [Notification.cname nm.2.1 c.2], hnext, by simp, ?_⟩
        intro n
        simp only [answersLoop, if_neg h1, hr, Run.bind_done, if_neg h2, ht, hc, hd, if_neg h3,
          if_pos t5, hn]
    by_cases t1 : type = DNS_RECORD_TYPE_A
    · cases hn : bytesAt payload (ptr + len + 12 + nm.2.2) 4 with
      | fault =>
        right; left; intro n
        simp only [answersLoop, if_neg h1, hr, Run.bind_done, if_neg h2, ht, hc, hd, if_neg h3,
          if_neg t5, if_pos t1, hn, Run.bind_fault]
      | nofuel => exact absurd hn (bytesAt_ne_nofuel _ _ _)
      | done addr =>
        right; right; right
        refine ⟨by omega, _, [Notification.ipv4 nm.2.1 addr], hnext, by simp, ?_⟩
        intro n
        simp only [answersLoop, if_neg h1, hr, Run.bind_done, if_neg h2, ht, hc, hd, if_neg h3,
          if_neg t5, if_pos t1, hn]
    by_cases t28 : type = DNS_RECORD_TYPE_AAAA
    · cases hn : bytesAt payload (ptr + len + 12 + nm.2.2) 16 with
      | fault =>
        right; left; intro n
        simp only [answersLoop, if_neg h1, hr, Run.bind_done, if_neg h2, ht, hc, hd, if_neg h3,
          if_neg t5, if_neg t1, if_pos t28, hn, Run.bind_fault]
      | nofuel => exact absurd hn (bytesAt_ne_nofuel _ _ _)
      | done addr =>
        right; right; right
        refine ⟨by omega, _, [Notification.ipv6 nm.2.1 addr], hnext, by simp, ?_⟩
        intro n
        simp only [answersLoop, if_neg h1, hr, Run.bind_done, if_neg h2, ht, hc, hd, if_neg h3,
          if_neg t5, if_neg t1, if_pos t28, hn]
    · right; right; right
      refine ⟨by omega, _, [], hnext, by simp, ?_⟩
      intro n
      simp only [answersLoop, if_neg h1, hr, Run.bind_done, if_neg h2, ht, hc, hd, if_neg h3,
        if_neg t5, if_neg t1, if_neg t28, List.append_nil]

/-- One iteration of the loop of `dnsReadQueries`: it returns -1 with the sink
as it was, or it does not return, or it goes on to the next record with `len`
advanced by at least 6 and at most one notification more, none without `emit`. -/
theorem queriesLoop_cases (fuel : Nat) (payload : List Nat) (payloadLen ptr remaining : Int)
    (emit : Bool) (len : Int) (sink : List Notification) :
    (∀ n, queriesLoop fuel payload payloadLen ptr remaining emit (n + 1) len sink =
        .done (-1, sink)) ∨
      (∀ n, queriesLoop fuel payload payloadLen ptr remaining emit (n + 1) len sink = .fault) ∨
      (∀ n, queriesLoop fuel payload payloadLen ptr remaining emit (n + 1) len sink = .nofuel) ∨
      (6 < remaining - len ∧ ∃ next x, len + 6 ≤ next ∧ x.length ≤ (if emit then 1 else 0) ∧
        ∀ n, queriesLoop fuel payload payloadLen ptr remaining emit (n + 1) len sink =
          queriesLoop fuel payload payloadLen ptr remaining emit n next (sink ++ x)) := by
  by_cases h1 : remaining - len ≤ 6
  · left; intro n; rw [queriesLoop, if_pos h1]
  cases hr : readRecordName fuel payload payloadLen (ptr + len) with
  | fault => right; left; intro n; simp only [queriesLoop, if_neg h1, hr, Run.bind_fault]
  | nofuel => right; right; left; intro n; simp only [queriesLoop, if_neg h1, hr, Run.bind_nofuel]
  | done nm =>
    have hfo := readRecordName_fieldsOffset _ _ _ _ _ hr
    by_cases h2 : nm.1 ≤ 0
    · left; intro n; simp only [queriesLoop, if_neg h1, hr, Run.bind_done, if_pos h2]
    cases ht : U16S payload (ptr + len) (nm.2.2 + 2) with
    | fault =>
      right; left; intro n
      simp only [queriesLoop, if_neg h1, hr, Run.bind_done, if_neg h2, ht, Run.bind_fault]
    | nofuel =>
      right; right; left; intro n
      simp only [queriesLoop, if_neg h1, hr, Run.bind_done, if_neg h2, ht, Run.bind_nofuel]
    | done type =>
    cases hc : U16S payload (ptr + len) (nm.2.2 + 4) with
    | fault =>
      right; left; intro n
      simp only [queriesLoop, if_neg h1, hr, Run.bind_done, if_neg h2, ht, hc, Run.bind_fault]
    | nofuel =>
      right; right; left; intro n
      simp only [queriesLoop, if_neg h1, hr, Run.bind_done, if_neg h2, ht, hc, Run.bind_nofuel]
    | done cls =>
    have hnext : len + 6 ≤ len + 6 + nm.2.2 := by omega
    right; right; right
    refine ⟨by omega, len + 6 + nm.2.2, ?_⟩
    by_cases t1 : type = DNS_RECORD_TYPE_A
    · cases emit with
      | true =>
        refine ⟨[Notification.ipv4 nm.2.1 (List.replicate 4 0)], hnext, by simp, ?_⟩
        intro n
        simp only [queriesLoop, if_neg h1, hr, Run.bind_done, if_neg h2, ht, hc, if_pos t1,
          if_true]
      | false =>
        refine ⟨[], hnext, by simp, ?_⟩
        intro n
        simp only [queriesLoop, if_neg h1, hr, Run.bind_done, if_neg h2, ht, hc, if_pos t1,
          Bool.false_eq_true, if_false, List.append_nil]
    by_cases t28 : type = DNS_RECORD_TYPE_AAAA
    · cases emit with
      | true =>
        refine ⟨[Notification.ipv6 nm.2.1 (List.replicate 16 0)], hnext, by simp, ?_⟩
        intro n
        simp only [queriesLoop, if_neg h1, hr, Run.bind_done, if_neg h2, ht, hc, if_neg t1,
          if_pos t28, if_true]
      | false =>
        refine ⟨[], hnext, by simp, ?_⟩
        intro n
        simp only [queriesLoop, if_neg h1, hr, Run.bind_done, if_neg h2, ht, hc, if_neg t1,
          if_pos t28, Bool.false_eq_true, if_false, List.append_nil]
    · refine ⟨[], hnext, by simp, ?_⟩
      intro n
      simp only [queriesLoop, if_neg h1, hr, Run.bind_done, if_neg h2, ht, hc, if_neg t1,
        if_neg t28, List.append_nil]

/-! ## The loops of the section readers -/

theorem answersLoop_sink (fuel : Nat) (payload : List Nat) (payloadLen ptr remaining : Int) :
    ∀ (n : Nat) (len : Int) (sink : List Notification) (r : Int) (s : List Notification),
      answersLoop fuel payload payloadLen ptr remaining n len sink = .done (r, s) →
      ∃ x, s = sink ++ x ∧ x.length ≤ n := by
  intro n
  induction n with
  | zero =>
    intro len sink r s h
    rw [answersLoop] at h
    injection h with h; injection h with _ h
    exact ⟨[], by simp [h], by simp⟩
  | succ n ih =>
    intro len sink r s h
    rcases answersLoop_cases fuel payload payloadLen ptr remaining len sink with
      hc | hc | hc | ⟨_, next, x, _, hx, hc⟩
    · rw [hc n] at h
      injection h with h; injection h with _ h
      exact ⟨[], by simp [h], by simp⟩
    · rw [hc n] at h; cases h
    · rw [hc n] at h; cases h
    · rw [hc n] at h
      obtain ⟨y, hy, hyl⟩ := ih _ _ _ _ h
      exact ⟨x ++ y, by rw [hy, List.append_assoc], by rw [List.length_append]; omega⟩

theorem queriesLoop_sink (fuel : Nat) (payload : List Nat) (payloadLen ptr remaining : Int)
    (emit : Bool) :
    ∀ (n : Nat) (len : Int) (sink : List Notification) (r : Int) (s : List Notification),
      queriesLoop fuel payload payloadLen ptr remaining emit n len sink = .done (r, s) →
      ∃ x, s = sink ++ x ∧ x.length ≤ (if emit then n else 0) := by
  intro n
  induction n with
  | zero =>
    intro len sink r s h
    rw [queriesLoop] at h
    injection h with h; injection h with _ h
    exact ⟨[], by simp [h], by simp⟩
  | succ n ih =>
    intro len sink r s h
    rcases queriesLoop_cases fuel payload payloadLen ptr remaining emit len sink with
      hc | hc | hc | ⟨_, next, x, _, hx, hc⟩
    · rw [hc n] at h
      injection h with h; injection h with _ h
      exact ⟨[], by simp [h], by simp⟩
    · rw [hc n] at h; cases h
    · rw [hc n] at h; cases h
    · rw [hc n] at h
      obtain ⟨y, hy, hyl⟩ := ih _ _ _ _ h
      refine ⟨x ++ y, by rw [hy, List.append_assoc], ?_⟩
      rw [List.length_append]
      cases emit with
      | true => simp only [if_true] at hx hyl ⊢; omega
      | false => simp only [Bool.false_eq_true, if_false] at hx hyl ⊢; omega

/-- Reading `k + 1` answer records is reading `k` records and then one more. -/
theorem answersLoop_snoc (fuel : Nat) (payload : List Nat) (payloadLen ptr remaining : Int) :
    ∀ (k : Nat) (len0 : Int) (sink0 : List Notification) (len : Int) (sink : List Notification),
      answersLoop fuel payload payloadLen ptr remaining k len0 sink0 = .done (len, sink) →
      0 ≤ len →
      answersLoop fuel payload payloadLen ptr remaining (k + 1) len0 sink0 =
        answersLoop fuel payload payloadLen ptr remaining 1 len sink := by
  intro k
  induction k with
  | zero =>
    intro len0 sink0 len sink h _
    rw [answersLoop] at h
    injection h with h; injection h with h1 h2
    rw [h1, h2]
  | succ k ih =>
    intro len0 sink0 len sink h hlen
    rcases answersLoop_cases fuel payload payloadLen ptr remaining len0 sink0 with
      hc | hc | hc | ⟨_, next, x, _, _, hc⟩
    · rw [hc k] at h
      injection h with h; injection h with h _
      omega
    · rw [hc k] at h; cases h
    · rw [hc k] at h; cases h
    · rw [hc k] at h
      rw [hc (k + 1)]
      exact ih _ _ _ _ h hlen

/-- Reading `q + 1` query records is reading `q` records and then one more. -/
theorem queriesLoop_snoc (fuel : Nat) (payload : List Nat) (payloadLen ptr remaining : Int)
    (emit : Bool) :
    ∀ (q : Nat) (len0 : Int) (sink0 : List Notification) (len : Int) (sink : List Notification),
      queriesLoop fuel payload payloadLen ptr remaining emit q len0 sink0 = .done (len, sink) →
      0 ≤ len →
      queriesLoop fuel payload payloadLen ptr remaining emit (q + 1) len0 sink0 =
        queriesLoop fuel payload payloadLen ptr remaining emit 1 len sink := by
  intro q
  induction q with
  | zero =>
    intro len0 sink0 len sink h _
    rw [queriesLoop] at h
    injection h with h; injection h with h1 h2
    rw [h1, h2]
  | succ q ih =>
    intro len0 sink0 len sink h hlen
    rcases queriesLoop_cases fuel payload payloadLen ptr remaining emit len0 sink0 with
      hc | hc | hc | ⟨_, next, x, _, _, hc⟩
    · rw [hc q] at h
      injection h with h; injection h with h _
      omega
    · rw [hc q] at h; cases h
    · rw [hc q] at h; cases h
    · rw [hc q] at h
      rw [hc (q + 1)]
      exact ih _ _ _ _ h hlen

/-- After the header and the query section, `parse` is its answer part. -/
theorem parse_after_queries (fuel : Nat) (payload : List Nat) (payloadLen : Int)
    (hlen : 12 ≤ payloadLen) (hbuf : payloadLen ≤ payload.length)
    (hop : DNS_FLAG_OPCODE (word16 payload 2) = 0)
    (hq : word16 payload 4 ≤ 4) (ha : word16 payload 6 ≤ 20)
    (size : Int) (sq : List Notification)
    (hqs : dnsReadQueries fuel payload payloadLen 12 (payloadLen - 12) (word16 payload 4)
      (decide (word16 payload 2 &&& DNS_FLAG_RESPONSE = 0)) [] = .done (size, sq))
    (h0 : 0 ≤ size) (hfit : 12 + size ≤ payloadLen) :
    parse fuel payload payloadLen =
      parseAnswers fuel payload payloadLen (12 + size) (word16 payload 6) sq := by
  rw [parse_header_eq fuel payload payloadLen hlen hbuf, if_neg (by simp [hop]),
    if_neg (by omega)]
  by_cases hz : word16 payload 4 > 0
  · rw [if_pos hz, hqs]
    simp only [Run.bind_done]
    rw [if_neg (by omega), if_neg (by omega)]
  · rw [if_neg hz]
    have hz0 : word16 payload 4 = 0 := by omega
    rw [hz0] at hqs
    simp only [dnsReadQueries, queriesLoop] at hqs
    injection hqs with hqs; injection hqs with h1 h2
    rw [← h1, ← h2]
    simp

theorem byteAt_done_eq (payload : List Nat) (i : Nat) (b : Nat)
    (h : byteAt payload (i : Int) = .done b) : b = payload.getD i 0 := by
  unfold byteAt at h
  rw [if_pos (by omega)] at h
  simp only [Int.toNat_ofNat] at h
  cases hg : payload[i]? with
  | none => rw [hg] at h; cases h
  | some v =>
    rw [hg] at h
    injection h with h
    rw [List.getD_eq_getElem?_getD, hg, ← h]
    rfl

theorem U16S_done_eq (payload : List Nat) (i : Nat) (v : Nat)
    (h : U16S payload 0 (i : Int) = .done v) : v = word16 payload i := by
  unfold U16S at h
  have h0 : (0 : Int) + (i : Int) = ((i : Nat) : Int) := by simp
  have h1 : (i : Int) + 1 = ((i + 1 : Nat) : Int) := by push_cast; ring
  rw [h0, h1] at h
  cases ha : byteAt payload (i : Int) with
  | fault => rw [ha] at h; cases h
  | nofuel => rw [ha] at h; cases h
  | done hi =>
    cases hb : byteAt payload ((i + 1 : Nat) : Int) with
    | fault => rw [ha, hb] at h; cases h
    | nofuel => rw [ha, hb] at h; cases h
    | done lo =>
      rw [ha, hb] at h
      simp only [Run.bind_done] at h
      injection h with h
      rw [← h, byteAt_done_eq _ _ _ ha, byteAt_done_eq _ _ _ hb]
      rfl

theorem parseAnswers_sink (fuel : Nat) (payload : List Nat) (payloadLen recordOffset : Int)
    (n : Nat) (s0 : List Notification) (r : Int) (s : List Notification)
    (h : parseAnswers fuel payload payloadLen recordOffset n s0 = .done (r, s)) :
    ∃ x, s = s0 ++ x ∧ x.length ≤ n := by
  unfold parseAnswers at h
  split at h
  · cases ha : dnsReadAnswers fuel payload payloadLen recordOffset (payloadLen - recordOffset)
        n s0 with
    | fault => rw [ha] at h; cases h
    | nofuel => rw [ha] at h; cases h
    | done ra =>
      rw [ha] at h
      simp only [Run.bind_done] at h
      obtain ⟨x, hx, hxl⟩ := answersLoop_sink _ _ _ _ _ _ _ _ ra.1 ra.2 ha
      have hs : s = ra.2 := by
        split at h
        · injection h with h; injection h with _ h; exact h.symm
        · split at h
          · injection h with h; injection h with _ h; exact h.symm
          · injection h with h; injection h with _ h; exact h.symm
      exact ⟨x, by rw [hs, hx], hxl⟩
  · injection h with h; injection h with _ h
    exact ⟨[], by simp [h], by simp⟩

/-! ## The root name -/

theorem U16S_at (payload : List Nat) (p index : Int) (i : Nat) (hi : p + index = i)
    (hlt : i + 1 < payload.length) : U16S payload p index = .done (word16 payload i) := by
  have h1 : (i : Int) + 1 = ((i + 1 : Nat) : Int) := by push_cast; ring
  simp only [U16S, hi, h1]
  rw [byteAt_of_lt payload i (by omega), byteAt_of_lt payload (i + 1) hlt]
  rfl

/-- At a zero byte `dnsReadName` returns 0 and leaves the string empty. -/
theorem dnsReadName_root (fuel nameOff : Nat) (payload : List Nat) (payloadLen : Int)
    (hbuf : payloadLen ≤ payload.length) (h1 : 1 ≤ nameOff) (h2 : (nameOff : Int) < payloadLen)
    (hz : payload.getD nameOff 0 = 0) :
    dnsReadName (fuel + 1) [] nameOff payload payloadLen = .done (0, []) := by
  obtain ⟨b, hb⟩ : ∃ b, (payloadLen - (nameOff : Int)).toNat = b + 1 :=
    ⟨(payloadLen - (nameOff : Int)).toNat - 1, by omega⟩
  rw [dnsReadName, if_neg (by omega), hb, nameLoop, if_pos h2,
    byteAt_of_lt payload nameOff (by omega), hz]
  simp only [Run.bind_done, charToU16_of_lt 0 (by omega)]
  rw [if_neg (by decide), if_neg (by omega), if_pos trivial, if_neg (by omega)]
  rfl

/-- The name field of a record at offset 12 that holds the root name: `nameLen`
is 0, or -1 when the compression pointer leaves the payload. -/
theorem readRecordName_root (fuel : Nat) (payload : List Nat) (payloadLen : Int) (nameOff : Nat)
    (hlen : 13 < payloadLen) (hbuf : payloadLen ≤ payload.length)
    (hbytes : ∀ b ∈ payload, b < 256)
    (hroot : (payload.getD 12 0 = 0 ∧ nameOff = 12) ∨
      (word16 payload 12 &&& 0xc000 = 0xc000 ∧ nameOff = word16 payload 12 &&& 0x3fff ∧
        payload.getD nameOff 0 = 0)) :
    ∃ nm, readRecordName (fuel + 1) payload payloadLen 12 = .done nm ∧ nm.1 ≤ 0 := by
  have hu : U16S payload 12 0 = .done (word16 payload 12) :=
    U16S_at payload 12 0 12 (by simp) (by omega)
  unfold readRecordName
  rw [hu]
  simp only [Run.bind_done]
  rcases hroot with ⟨hz, hoff⟩ | ⟨hptr, hoff, hz⟩
  · have h13 : payload.getD 13 0 < 256 := by
      rw [List.getD_eq_getElem?_getD, List.getElem?_eq_getElem (by omega : 13 < payload.length)]
      exact hbytes _ (List.getElem_mem _)
    have hw : word16 payload 12 = payload.getD 13 0 := by
      unfold word16
      rw [hz]
      simp
    have hnp : ¬ (word16 payload 12 &&& 0xc000 = 0xc000) := by
      have := Nat.and_le_left (n := word16 payload 12) (m := 0xc000)
      omega
    rw [if_neg hnp]
    have hm : ((12 : Int) % 65536).toNat = 12 := by decide
    rw [hm, dnsReadName_root fuel 12 payload payloadLen hbuf (by omega) (by omega) hz]
    exact ⟨_, rfl, le_refl _⟩
  · rw [if_pos hptr, ← hoff]
    by_cases hin : 1 ≤ nameOff ∧ (nameOff : Int) < payloadLen
    · rw [dnsReadName_root fuel nameOff payload payloadLen hbuf hin.1 hin.2 hz]
      exact ⟨_, rfl, le_refl _⟩
    · rw [dnsReadName, if_pos (by omega)]
      exact ⟨_, rfl, by decide⟩

/-! ## The claims -/

/-- C1. Inline name round trip: a payload that holds at an offset `k` with
`1 ≤ k < payloadLen` the length-prefixed labels (each 1 to 63 bytes, joined
text at most 126 bytes) followed by a zero byte, all inside the payload, makes
`dnsReadName` at `k` set the output string to the labels joined by `'.'` and
return that string's length, which is the name's on-wire length minus 2. -/
theorem dnsReadName_inline_roundtrip (fuel : Nat) (retstr : List Nat)
    (labels : List (List Nat)) (pre post : List Nat) (payloadLen : Int)
    (hne : labels ≠ [])
    (hlab : ∀ l ∈ labels, 1 ≤ l.length ∧ l.length ≤ 63)
    (hjoin : (joinDot labels).length ≤ 126)
    (hk1 : 1 ≤ pre.length)
    (hin : (pre.length : Int) + (encName labels).length ≤ payloadLen) :
    dnsReadName (fuel + 1) retstr pre.length (pre ++ encName labels ++ post) payloadLen =
        .done (((joinDot labels).length : Int), joinDot labels) ∧
      (joinDot labels).length = (encName labels).length - 2 := by
  refine ⟨dnsReadName_inline_eq fuel retstr labels _ pre post pre.length payloadLen rfl rfl
    hne hlab hjoin hk1 hin, ?_⟩
  rw [joinDot_length, encName_length]
  omega

/-- The instance of C1 at the name `example.com` held at offset 12 of a
payload of 39 bytes. -/
theorem dnsReadName_inline_roundtrip_witness :
    dnsReadName 1 [] 12 (exampleHdr ++ encName exampleLabels ++ exampleTail) 39 =
        .done (11, [101, 120, 97, 109, 112, 108, 101, 46, 99, 111, 109]) ∧
      (joinDot exampleLabels).length = (encName exampleLabels).length - 2 := by
  have h := dnsReadName_inline_roundtrip 0 [] exampleLabels exampleHdr exampleTail 39
    (by decide) (by decide) (by decide) (by decide) (by decide)
  exact ⟨h.1.trans (by decide), h.2⟩

/-- C2. A message with opcode 0, no query and one answer record with an inline
owner name, type A and a declared RDATA length of 4 followed by 4 RDATA bytes
inside the payload: `parse` returns 0 and the listener receives exactly the
IPv4 notification with the dot-joined owner name and the 4 RDATA bytes in
wire order. -/
theorem parse_single_A_answer (fuel : Nat)
    (x0 x1 f0 f1 n0 n1 r0 r1 c0 c1 t0 t1 t2 t3 a0 a1 a2 a3 : Nat)
    (labels : List (List Nat)) (rest : List Nat) (payloadLen : Int)
    (hop : DNS_FLAG_OPCODE ((f0 <<< 8) + f1) = 0)
    (hne : labels ≠ [])
    (hlab : ∀ l ∈ labels, 1 ≤ l.length ∧ l.length ≤ 63)
    (hbytes : ∀ l ∈ labels, ∀ b ∈ l, b < 256)
    (hjoin : (joinDot labels).length ≤ 126)
    (hlen : 12 + ((encName labels).length : Int) + 14 ≤ payloadLen)
    (hbuf : payloadLen ≤ 12 + ((encName labels).length : Int) + 14 + rest.length)
    (hint : payloadLen < 2 ^ 31) :
    parse (fuel + 1)
        ([x0, x1, f0, f1, 0, 0, 0, 1, n0, n1, r0, r1] ++ encName labels ++
          [0, 1, c0, c1, t0, t1, t2, t3, 0, 4] ++ [a0, a1, a2, a3] ++ rest)
        payloadLen =
      .done (0, [Notification.ipv4 (joinDot labels) [a0, a1, a2, a3]]) := by
  generalize hpl : [x0, x1, f0, f1, 0, 0, 0, 1, n0, n1, r0, r1] ++ encName labels ++
    [0, 1, c0, c1, t0, t1, t2, t3, 0, 4] ++ [a0, a1, a2, a3] ++ rest = payload
  have hlenP : payload.length = 12 + (encName labels).length + 14 + rest.length := by
    rw [← hpl]; simp; omega
  have w2 : word16 payload 2 = (f0 <<< 8) + f1 := by rw [← hpl]; simp [word16]
  have w4 : word16 payload 4 = 0 := by rw [← hpl]; simp [word16]
  have w6 : word16 payload 6 = 1 := by rw [← hpl]; simp [word16]
  rw [parse_header_eq _ _ _ (by omega) (by rw [hlenP]; push_cast; omega), w2, w4, w6]
  have hL := joinDot_length labels
  have hE := encName_length labels
  have hE2 := encLabels_length_pos labels hne hlab
  have hn := readRecordName_inline fuel labels payload [x0, x1, f0, f1, 0, 0, 0, 1, n0, n1, r0, r1]
    ([0, 1, c0, c1, t0, t1, t2, t3, 0, 4] ++ [a0, a1, a2, a3] ++ rest) (12 + 0) payloadLen
    (by rw [← hpl]; simp) (by simp) hne hlab hbytes hjoin (by simp) (by simp) (by omega)
  have ht : U16S payload (12 + 0) (((joinDot labels).length : Int) + 2) = .done 1 :=
    U16S_mid payload ([x0, x1, f0, f1, 0, 0, 0, 1, n0, n1, r0, r1] ++ encName labels)
      ([c0, c1, t0, t1, t2, t3, 0, 4] ++ [a0, a1, a2, a3] ++ rest) 0 1 _ _ (by rw [← hpl]; simp)
      (by simp only [List.length_append, List.length_cons, List.length_nil]; push_cast; omega)
  have hc : U16S payload (12 + 0) (((joinDot labels).length : Int) + 4) = .done ((c0 <<< 8) + c1) :=
    U16S_mid payload ([x0, x1, f0, f1, 0, 0, 0, 1, n0, n1, r0, r1] ++ encName labels ++ [0, 1])
      ([t0, t1, t2, t3, 0, 4] ++ [a0, a1, a2, a3] ++ rest) c0 c1 _ _ (by rw [← hpl]; simp)
      (by simp only [List.length_append, List.length_cons, List.length_nil]; push_cast; omega)
  have hd : U16S payload (12 + 0) (((joinDot labels).length : Int) + 10) = .done 4 :=
    U16S_mid payload ([x0, x1, f0, f1, 0, 0, 0, 1, n0, n1, r0, r1] ++ encName labels ++
        [0, 1, c0, c1, t0, t1, t2, t3])
      ([a0, a1, a2, a3] ++ rest) 0 4 _ _ (by rw [← hpl]; simp)
      (by simp only [List.length_append, List.length_cons, List.length_nil]; push_cast; omega)
  have ha : bytesAt payload (12 + 0 + 12 + ((joinDot labels).length : Int)) 4 =
      .done [a0, a1, a2, a3] :=
    bytesAt_mid payload ([x0, x1, f0, f1, 0, 0, 0, 1, n0, n1, r0, r1] ++ encName labels ++
        [0, 1, c0, c1, t0, t1, t2, t3, 0, 4]) [a0, a1, a2, a3] rest _ _ (by rw [← hpl])
      (by simp only [List.length_append, List.length_cons, List.length_nil]; push_cast; omega)
      rfl
  rw [if_neg (by simp [hop]), if_neg (by omega), if_neg (by omega)]
  simp only [parseAnswers, dnsReadAnswers, answersLoop]
  rw [if_pos (by omega), if_neg (by omega), hn]
  simp only [Run.bind_done]
  rw [if_neg (by omega), ht, hc, hd]
  simp only [Run.bind_done]
  rw [if_neg (by push_cast; omega), if_neg (by decide), if_pos (by decide), ha]
  simp only [Run.bind_done]
  rw [if_neg (by push_cast; omega), if_neg (by push_cast; omega)]
  rfl

/-- The instance of C2 at the response for `example.com` with address
93.184.216.34. -/
theorem parse_single_A_answer_witness :
    parse 1 (exampleHdr ++ encName exampleLabels ++ [0, 1, 0, 1, 0, 0, 0, 60, 0, 4] ++
        [93, 184, 216, 34] ++ []) 39 =
      .done (0, [Notification.ipv4 [101, 120, 97, 109, 112, 108, 101, 46, 99, 111, 109]
        [93, 184, 216, 34]]) := by
  have h := parse_single_A_answer 0 0x12 0x34 0x81 0x80 0 0 0 0 0 1 0 0 0 60 93 184 216 34
    exampleLabels [] 39 (by decide) (by decide) (by decide) (by decide) (by decide)
    (by decide) (by decide) (by decide)
  exact h.trans (by decide)

/-- C3. A message with opcode 0, one query with an inline name of type A and
no answer: `parse` returns 0; the listener receives the IPv4 notification with
the dot-joined name and the all-zero address when the response flag is clear,
and nothing when it is set. -/
theorem parse_single_A_query (fuel : Nat) (x0 x1 f0 f1 n0 n1 r0 r1 c0 c1 : Nat)
    (labels : List (List Nat)) (rest : List Nat) (payloadLen : Int)
    (hop : DNS_FLAG_OPCODE ((f0 <<< 8) + f1) = 0)
    (hne : labels ≠ [])
    (hlab : ∀ l ∈ labels, 1 ≤ l.length ∧ l.length ≤ 63)
    (hbytes : ∀ l ∈ labels, ∀ b ∈ l, b < 256)
    (hjoin : (joinDot labels).length ≤ 126)
    (hlen : 12 + ((encName labels).length : Int) + 4 ≤ payloadLen)
    (hbuf : payloadLen ≤ 12 + ((encName labels).length : Int) + 4 + rest.length) :
    parse (fuel + 1)
        ([x0, x1, f0, f1, 0, 1, 0, 0, n0, n1, r0, r1] ++ encName labels ++ [0, 1, c0, c1] ++ rest)
        payloadLen =
      .done (0, if ((f0 <<< 8) + f1) &&& DNS_FLAG_RESPONSE = 0
        then [Notification.ipv4 (joinDot labels) [0, 0, 0, 0]] else []) := by
  generalize hpl : [x0, x1, f0, f1, 0, 1, 0, 0, n0, n1, r0, r1] ++ encName labels ++
    [0, 1, c0, c1] ++ rest = payload
  have hlenP : payload.length = 12 + (encName labels).length + 4 + rest.length := by
    rw [← hpl]; simp; omega
  have w2 : word16 payload 2 = (f0 <<< 8) + f1 := by rw [← hpl]; simp [word16]
  have w4 : word16 payload 4 = 1 := by rw [← hpl]; simp [word16]
  have w6 : word16 payload 6 = 0 := by rw [← hpl]; simp [word16]
  rw [parse_header_eq _ _ _ (by omega) (by rw [hlenP]; push_cast; omega), w2, w4, w6]
  have hL := joinDot_length labels
  have hE := encName_length labels
  have hE2 := encLabels_length_pos labels hne hlab
  have hn := readRecordName_inline fuel labels payload [x0, x1, f0, f1, 0, 1, 0, 0, n0, n1, r0, r1]
    ([0, 1, c0, c1] ++ rest) (12 + 0) payloadLen (by rw [← hpl]; simp) (by simp) hne hlab hbytes
    hjoin (by simp) (by simp) (by omega)
  have ht : U16S payload (12 + 0) (((joinDot labels).length : Int) + 2) = .done ((0 <<< 8) + 1) :=
    U16S_mid payload ([x0, x1, f0, f1, 0, 1, 0, 0, n0, n1, r0, r1] ++ encName labels)
      (c0 :: c1 :: rest) 0 1 _ _ (by rw [← hpl]; simp)
      (by simp only [List.length_append, List.length_cons, List.length_nil]; push_cast; omega)
  have hc : U16S payload (12 + 0) (((joinDot labels).length : Int) + 4) = .done ((c0 <<< 8) + c1) :=
    U16S_mid payload ([x0, x1, f0, f1, 0, 1, 0, 0, n0, n1, r0, r1] ++ encName labels ++ [0, 1])
      rest c0 c1 _ _ (by rw [← hpl]; simp)
      (by simp only [List.length_append, List.length_cons, List.length_nil]; push_cast; omega)
  rw [if_neg (by simp [hop]), if_neg (by omega), if_pos (by omega)]
  simp only [dnsReadQueries, queriesLoop]
  rw [if_neg (by omega), hn]
  simp only [Run.bind_done]
  rw [if_neg (by omega), ht, hc]
  simp only [Run.bind_done, parseAnswers]
  rw [if_neg (by omega), if_neg (by omega), if_neg (by decide), if_pos (by decide)]
  by_cases hr : (f0 <<< 8 + f1) &&& DNS_FLAG_RESPONSE = 0
  · simp [hr, List.replicate]
  · simp [hr]

/-- The instance of C3 at a request with one A query for `example.com`. -/
theorem parse_single_A_query_witness :
    parse 1 ([0x12, 0x34, 0x01, 0x00, 0, 1, 0, 0, 0, 0, 0, 0] ++ encName exampleLabels ++
        [0, 1, 0, 1] ++ []) 29 =
      .done (0, [Notification.ipv4 [101, 120, 97, 109, 112, 108, 101, 46, 99, 111, 109]
        [0, 0, 0, 0]]) := by
  have h := parse_single_A_query 0 0x12 0x34 0x01 0x00 0 0 0 0 0 1
    exampleLabels [] 29 (by decide) (by decide) (by decide) (by decide) (by decide)
    (by decide) (by decide)
  exact h.trans (by decide)

/-- C4 on the code: with an inline owner name the CNAME target is read at
record start + 12, not at the RDATA offset. The name at the RDATA offset 25 is
`b`, and the A record is reported under `b`, but the CNAME notification carries
the five bytes decoded from offset 24. -/
theorem parse_cname_inline_owner (fuel : Nat) :
    dnsReadName (fuel + 1) [] 25 cnameInlineMsg 44 = .done (1, [98]) ∧
    parse (fuel + 2) cnameInlineMsg 44 =
      .done (0, [Notification.cname [97] [1, 98, 0, 46, 98],
        Notification.ipv4 [98] [1, 2, 3, 4]]) := by
  constructor
  · rfl
  · rfl

/-- C5. Header rejection: when `payloadLen < 12`, or the opcode of the flags word
is not 0, or the declared query count exceeds 4, or the declared answer count
exceeds 20, `parse` returns -1 and the listener receives nothing. -/
theorem parse_rejects_header (fuel : Nat) (payload : List Nat) (payloadLen : Int)
    (hbuf : payloadLen ≤ payload.length)
    (h : payloadLen < 12 ∨ DNS_FLAG_OPCODE (word16 payload 2) ≠ 0 ∨
      word16 payload 4 > 4 ∨ word16 payload 6 > 20) :
    parse fuel payload payloadLen = .done (-1, []) := by
  by_cases hlen : payloadLen < 12
  · unfold parse
    rw [if_pos hlen]
  · rw [parse_header_eq fuel payload payloadLen (by omega) hbuf]
    rcases h with h | h | h | h
    · exact absurd h hlen
    · rw [if_pos h]
    · by_cases hop : DNS_FLAG_OPCODE (word16 payload 2) ≠ 0
      · rw [if_pos hop]
      · rw [if_neg hop, if_pos (Or.inl h)]
    · by_cases hop : DNS_FLAG_OPCODE (word16 payload 2) ≠ 0
      · rw [if_pos hop]
      · rw [if_neg hop, if_pos (Or.inr h)]

/-- The instance of C5 at a header that declares 5 queries. -/
theorem parse_rejects_header_witness :
    parse 0 [0, 1, 0x01, 0x00, 0, 5, 0, 0, 0, 0, 0, 0] 12 = .done (-1, []) :=
  parse_rejects_header 0 [0, 1, 0x01, 0x00, 0, 5, 0, 0, 0, 0, 0, 0] 12 (by decide)
    (Or.inr (Or.inr (Or.inl (by decide))))

/-- C6. A header with opcode 0, query count 0 and answer count 0 in a payload
of at least 12 bytes: `parse` returns 0 and the listener receives nothing. -/
theorem parse_empty_sections (fuel : Nat) (payload : List Nat) (payloadLen : Int)
    (hlen : 12 ≤ payloadLen) (hbuf : payloadLen ≤ payload.length)
    (hop : DNS_FLAG_OPCODE (word16 payload 2) = 0)
    (hq : word16 payload 4 = 0) (ha : word16 payload 6 = 0) :
    parse fuel payload payloadLen = .done (0, []) := by
  rw [parse_header_eq fuel payload payloadLen hlen hbuf]
  simp [hop, hq, ha, parseAnswers]

/-- The instance of C6 at a bare response header followed by two bytes. -/
theorem parse_empty_sections_witness :
    parse 0 [0x12, 0x34, 0x81, 0x80, 0, 0, 0, 0, 0, 3, 0, 7, 9, 9] 14 = .done (0, []) :=
  parse_empty_sections 0 [0x12, 0x34, 0x81, 0x80, 0, 0, 0, 0, 0, 3, 0, 7, 9, 9] 14
    (by decide) (by decide) (by decide) (by decide) (by decide)

/-- C7 on the code: a compression pointer that follows inline labels and
targets offset 0, or an offset beyond the payload, does not make name decoding
fail: the result of the recursive call is dropped, the name is reported with a
trailing dot and `parse` returns 0. -/
theorem parse_pointer_after_labels_bad_target (fuel : Nat) :
    parse (fuel + 2) pointerToZeroMsg 20 =
        .done (0, [Notification.ipv4 [97, 46] [0, 0, 0, 0]]) ∧
      parse (fuel + 2) pointerBeyondMsg 20 =
        .done (0, [Notification.ipv4 [97, 46] [0, 0, 0, 0]]) := by
  constructor
  · rfl
  · rfl

/-- C8 on the code: for the message whose query name is a compression pointer
to its own offset, `parse` does not return, whatever the fuel. -/
theorem parse_self_pointer_diverges (fuel : Nat) :
    parse fuel selfPointerMsg 19 = .nofuel := by
  have hr : readRecordName fuel selfPointerMsg 19 (12 + 0) =
      (dnsReadName fuel [] 12 selfPointerMsg 19).bind fun r => .done (r.1, r.2, 0) := rfl
  have w2 : word16 selfPointerMsg 2 = 256 := rfl
  have w4 : word16 selfPointerMsg 4 = 1 := rfl
  have w6 : word16 selfPointerMsg 6 = 0 := rfl
  rw [parse_header_eq _ _ _ (by decide) (by decide), w2, w4, w6, if_neg (by decide),
    if_neg (by decide), if_pos (by decide)]
  simp only [dnsReadQueries, queriesLoop]
  rw [if_neg (by decide), hr, dnsReadName_self_pointer]
  rfl

/-- C9 on the code: the declared RDATA length of an A record is not compared
with 4. With a declared length of 5 `parse` returns 0 and reports the first 4
bytes; with a declared length of 2 at the end of the payload the 4-byte copy
reads outside the buffer. -/
theorem parse_A_record_wrong_rdlength (fuel : Nat) :
    parse (fuel + 1) aLen5Msg 30 = .done (0, [Notification.ipv4 [97] [1, 2, 3, 4]]) ∧
      parse (fuel + 1) aLen2Msg 27 = .fault := by
  constructor
  · rfl
  · rfl

/-- C10 as stated fails: the target of the CNAME record of `cnameBadTargetMsg`
does not decode, and the listener still receives a CNAME notification. -/
theorem parse_cname_bad_target_notifies :
    dnsReadName 1 [] 31 cnameBadTargetMsg 33 = .done (-1, []) ∧
      parse 1 cnameBadTargetMsg 33 = .done (0, [Notification.cname [97] []]) := by
  constructor
  · rfl
  · rfl

/-- C10, amended. A CNAME answer record that passes the fixed-field and
RDATA-length checks and whose target name, as the reader decodes it, fails with
-1: the listener receives one notification for it, the CNAME one with the owner
name and an empty target, and the reader goes on to the next record, `len`
advanced by 12 plus `fieldsOffset` plus the declared RDATA length. -/
theorem answersLoop_cname_target_fails (fuel : Nat) (payload : List Nat)
    (payloadLen ptr remaining : Int) (numAnswers : Nat) (len : Int) (sink : List Notification)
    (nameLen : Int) (name : List Nat) (fieldsOffset : Int) (cls datalen : Nat) (s : List Nat)
    (hrem : 12 < remaining - len)
    (hname : readRecordName fuel payload payloadLen (ptr + len) =
      .done (nameLen, name, fieldsOffset))
    (hpos : 0 < nameLen)
    (htype : U16S payload (ptr + len) (fieldsOffset + 2) = .done DNS_RECORD_TYPE_CNAME)
    (hcls : U16S payload (ptr + len) (fieldsOffset + 4) = .done cls)
    (hdl : U16S payload (ptr + len) (fieldsOffset + 10) = .done datalen)
    (hchk : ¬ ((remaining - len - 12 - fieldsOffset) % (2 ^ 64 : Int) < (datalen : Int)))
    (hfail : dnsReadName fuel [] ((ptr + len + 12) % 65536).toNat payload payloadLen =
      .done (-1, s)) :
    answersLoop fuel payload payloadLen ptr remaining (numAnswers + 1) len sink =
      answersLoop fuel payload payloadLen ptr remaining numAnswers
        (len + 12 + fieldsOffset + (datalen : Int)) (sink ++ [Notification.cname name []]) := by
  have hs : s = [] := dnsReadName_err _ _ _ _ _ _ hfail
  subst hs
  rw [answersLoop, if_neg (by omega)]
  dsimp only
  rw [hname]
  simp only [Run.bind_done]
  rw [if_neg (by omega), htype, hcls, hdl]
  simp only [Run.bind_done]
  rw [if_neg hchk, if_pos trivial, hfail]
  rfl

/-- The instance of amended C10 at the CNAME record of `cnameBadTargetMsg`. -/
theorem answersLoop_cname_target_fails_witness :
    answersLoop 1 cnameBadTargetMsg 33 19 14 1 0 [] =
      .done (14, [Notification.cname [97] []]) :=
  (answersLoop_cname_target_fails 1 cnameBadTargetMsg 33 19 14 0 0 [] 1 [97] 0 1 2 []
    (by decide) rfl (by decide) rfl rfl rfl (by decide) rfl).trans rfl

/-- C11 on the code: when the name and fixed fields of an answer record extend
past the end of the payload, the left side of the comparison of line 266 is
negative and wraps in `size_t`, so the test passes. With a payload that is
exactly the 25 bytes, reading RDLENGTH leaves the buffer; with the same 25
bytes at the start of a longer buffer, `dnsReadAnswers` returns 18 after
sending an IPv4 notification. -/
theorem parse_rdlength_check_wraps (fuel : Nat) :
    parse (fuel + 1) (truncFieldsBuf.take 25) 25 = .fault ∧
      dnsReadAnswers (fuel + 1) truncFieldsBuf 25 12 13 1 [] =
        .done (18, [Notification.ipv4 [97, 98] [9, 9, 9, 9]]) ∧
      parse (fuel + 1) truncFieldsBuf 25 =
        .done (-1, [Notification.ipv4 [97, 98] [9, 9, 9, 9]]) := by
  refine ⟨?_, ?_, ?_⟩
  · rfl
  · rfl
  · rfl

/-- C12 on the code: with `payloadLen` equal to the size of the buffer, the
type word after an inline name that ends the payload, and the second byte of a
compression pointer whose first byte ends the payload, are read outside the
buffer. -/
theorem parse_reads_outside_buffer (fuel : Nat) :
    nameAtEndMsg.length = 19 ∧ parse (fuel + 1) nameAtEndMsg 19 = .fault ∧
      pointerAtEndMsg.length = 19 ∧ parse (fuel + 1) pointerAtEndMsg 19 = .fault := by
  refine ⟨?_, ?_, ?_, ?_⟩
  · rfl
  · rfl
  · rfl
  · rfl

set_option maxRecDepth 100000

/-- C15 on the code: a compression pointer met inside `dnsReadName` is followed
to the offset given by its second byte alone. The pointer `c1 14` after the
label `a` leads to offset 20 (name `b`), not to offset 276 (name `c`); and the
pointer `c0 14` gives `b` when a section reader meets it as a name field but
`.b` when `dnsReadName` meets it. -/
theorem parse_pointer_low_byte_only (fuel : Nat) :
    parse (fuel + 2) pointer14Msg 279 =
        .done (0, [Notification.ipv4 [97, 46, 98] [0, 0, 0, 0]]) ∧
      dnsReadName (fuel + 1) [] 20 pointer14Msg 279 = .done (1, [98]) ∧
      dnsReadName (fuel + 1) [] 276 pointer14Msg 279 = .done (1, [99]) ∧
      readRecordName (fuel + 1) pointer14Msg 279 23 = .done (1, [98], 0) ∧
      dnsReadName (fuel + 2) [] 23 pointer14Msg 279 = .done (2, [46, 98]) := by
  refine ⟨?_, ?_, ?_, ?_, ?_⟩
  · rfl
  · rfl
  · rfl
  · rfl
  · rfl

/-- C16 on the code: for a name made of inline labels ended by a compression
pointer, `fieldsOffset` is the length of the whole text. The name of
`labelsPointerMsg` takes 4 bytes and is followed by type A, but the type is
read one byte further (256), no notification is sent and the reader advances
by 9 instead of 8. -/
theorem parse_labels_pointer_misaligned (fuel : Nat) :
    U16S labelsPointerMsg 12 4 = .done DNS_RECORD_TYPE_A ∧
      readRecordName (fuel + 2) labelsPointerMsg 23 12 = .done (3, [97, 46, 98], 3) ∧
      U16S labelsPointerMsg 12 (3 + 2) = .done 256 ∧
      dnsReadQueries (fuel + 2) labelsPointerMsg 23 12 11 1 true [] = .done (9, []) ∧
      parse (fuel + 2) labelsPointerMsg 23 = .done (0, []) := by
  refine ⟨?_, ?_, ?_, ?_, ?_⟩
  · rfl
  · rfl
  · rfl
  · rfl
  · rfl

/-- C18. Bounded emission: when `parse` returns, the notifications are those
of the query reader followed by those sent afterwards by the answer reader; the
first are at most the declared query count when the response flag is clear and
none when it is set, the second at most the declared answer count, and there
are at most 24 in all. -/
theorem parse_bounded_emission (fuel : Nat) (payload : List Nat) (payloadLen : Int)
    (r : Int) (sink : List Notification)
    (h : parse fuel payload payloadLen = .done (r, sink)) :
    ∃ qs as, sink = qs ++ as ∧
      qs.length ≤ (if word16 payload 2 &&& DNS_FLAG_RESPONSE = 0 then word16 payload 4 else 0) ∧
      as.length ≤ word16 payload 6 ∧ sink.length ≤ 24 ∧
      (qs = [] ∨ ∃ size, dnsReadQueries fuel payload payloadLen 12 (payloadLen - 12)
        (word16 payload 4) (decide (word16 payload 2 &&& DNS_FLAG_RESPONSE = 0)) [] =
          .done (size, qs)) := by
  have hnil : sink = [] → ∃ qs as, sink = qs ++ as ∧
      qs.length ≤ (if word16 payload 2 &&& DNS_FLAG_RESPONSE = 0 then word16 payload 4 else 0) ∧
      as.length ≤ word16 payload 6 ∧ sink.length ≤ 24 ∧
      (qs = [] ∨ ∃ size, dnsReadQueries fuel payload payloadLen 12 (payloadLen - 12)
        (word16 payload 4) (decide (word16 payload 2 &&& DNS_FLAG_RESPONSE = 0)) [] =
          .done (size, qs)) := by
    intro hs
    exact ⟨[], [], by simp [hs], by simp, by simp, by simp [hs], Or.inl rfl⟩
  unfold parse at h
  split at h
  · injection h with h; injection h with _ h
    exact hnil h.symm
  cases h0 : U16S payload 0 0 with
  | fault => rw [h0] at h; cases h
  | nofuel => rw [h0] at h; cases h
  | done txid =>
  cases h2 : U16S payload 0 2 with
  | fault => rw [h0, h2] at h; cases h
  | nofuel => rw [h0, h2] at h; cases h
  | done flags =>
  cases h4 : U16S payload 0 4 with
  | fault => rw [h0, h2, h4] at h; cases h
  | nofuel => rw [h0, h2, h4] at h; cases h
  | done nq =>
  cases h6 : U16S payload 0 6 with
  | fault => rw [h0, h2, h4, h6] at h; cases h
  | nofuel => rw [h0, h2, h4, h6] at h; cases h
  | done na =>
  rw [h0, h2, h4, h6] at h
  simp only [Run.bind_done] at h
  have e2 : flags = word16 payload 2 := U16S_done_eq payload 2 flags h2
  have e4 : nq = word16 payload 4 := U16S_done_eq payload 4 nq h4
  have e6 : na = word16 payload 6 := U16S_done_eq payload 6 na h6
  subst e2 e4 e6
  split at h
  · injection h with h; injection h with _ h
    exact hnil h.symm
  split at h
  · injection h with h; injection h with _ h
    exact hnil h.symm
  rename_i hcnt
  split at h
  · generalize hq : dnsReadQueries fuel payload payloadLen 12 (payloadLen - 12)
        (word16 payload 4) (decide (word16 payload 2 &&& DNS_FLAG_RESPONSE = 0)) [] = rqr at h
    cases rqr with
    | fault => cases h
    | nofuel => cases h
    | done rq =>
      simp only [Run.bind_done] at h
      obtain ⟨qs, hqs, hql⟩ := queriesLoop_sink _ _ _ _ _ _ _ _ _ rq.1 rq.2 hq
      simp only [List.nil_append] at hqs
      have hql2 : qs.length ≤
          (if word16 payload 2 &&& DNS_FLAG_RESPONSE = 0 then word16 payload 4 else 0) := by
        by_cases hf : word16 payload 2 &&& DNS_FLAG_RESPONSE = 0
        · simpa [hf] using hql
        · simpa [hf] using hql
      have hq4 : qs.length ≤ 4 := by
        split at hql2 <;> omega
      have hrq : Run.done rq = Run.done (rq.1, qs) := by rw [← hqs]
      have hstop : sink = rq.2 → ∃ qs as, sink = qs ++ as ∧
          qs.length ≤
            (if word16 payload 2 &&& DNS_FLAG_RESPONSE = 0 then word16 payload 4 else 0) ∧
          as.length ≤ word16 payload 6 ∧ sink.length ≤ 24 ∧
          (qs = [] ∨ ∃ size, Run.done rq = Run.done (size, qs)) := by
        intro hs
        exact ⟨qs, [], by rw [hs, hqs]; simp, hql2, by simp, by rw [hs, hqs]; omega,
          Or.inr ⟨rq.1, hrq⟩⟩
      split at h
      · injection h with h; injection h with _ h
        exact hstop h.symm
      split at h
      · injection h with h; injection h with _ h
        exact hstop h.symm
      obtain ⟨x, hx, hxl⟩ := parseAnswers_sink _ _ _ _ _ _ _ _ h
      refine ⟨qs, x, by rw [hx, hqs], hql2, hxl, ?_, Or.inr ⟨rq.1, hrq⟩⟩
      rw [hx, hqs, List.length_append]
      omega
  · obtain ⟨x, hx, hxl⟩ := parseAnswers_sink _ _ _ _ _ _ _ _ h
    refine ⟨[], x, by rw [hx], by simp, hxl, ?_, Or.inl rfl⟩
    rw [hx, List.length_append, List.length_nil]
    omega

/-- The instance of C18 at `bothSectionsMsg`: one query notification, then one
answer notification. -/
theorem parse_bounded_emission_witness :
    ∃ qs as, [Notification.ipv4 [97] [0, 0, 0, 0], Notification.ipv4 [97] [1, 2, 3, 4]] =
        qs ++ as ∧
      qs.length ≤ (if word16 bothSectionsMsg 2 &&& DNS_FLAG_RESPONSE = 0
        then word16 bothSectionsMsg 4 else 0) ∧
      as.length ≤ word16 bothSectionsMsg 6 ∧
      [Notification.ipv4 [97] [0, 0, 0, 0], Notification.ipv4 [97] [1, 2, 3, 4]].length ≤ 24 ∧
      (qs = [] ∨ ∃ size, dnsReadQueries 1 bothSectionsMsg 35 12 (35 - 12)
        (word16 bothSectionsMsg 4) (decide (word16 bothSectionsMsg 2 &&& DNS_FLAG_RESPONSE = 0))
        [] = .done (size, qs)) :=
  parse_bounded_emission 1 bothSectionsMsg 35 0
    [Notification.ipv4 [97] [0, 0, 0, 0], Notification.ipv4 [97] [1, 2, 3, 4]] rfl

/-- C19. A record is read only when strictly more bytes than its fixed size
remain: the loop of `dnsReadQueries` returns -1 when 6 or fewer bytes remain at
a record's start and the loop of `dnsReadAnswers` when 12 or fewer remain; so
`parse` returns -1 on a message whose last query record starts exactly 6 bytes
before the end of the payload, and on a message whose last answer record
starts exactly 12 bytes before it. -/
theorem parse_record_needs_more_than_fixed_size (fuel : Nat) (payload : List Nat)
    (payloadLen : Int) (hlen : 12 ≤ payloadLen) (hbuf : payloadLen ≤ payload.length)
    (hop : DNS_FLAG_OPCODE (word16 payload 2) = 0)
    (hq : word16 payload 4 ≤ 4) (ha : word16 payload 6 ≤ 20) :
    (∀ (ptr remaining : Int) (emit : Bool) (n : Nat) (len : Int) (sink : List Notification),
        remaining - len ≤ 6 →
        queriesLoop fuel payload payloadLen ptr remaining emit (n + 1) len sink =
          .done (-1, sink)) ∧
      (∀ (ptr remaining : Int) (n : Nat) (len : Int) (sink : List Notification),
        remaining - len ≤ 12 →
        answersLoop fuel payload payloadLen ptr remaining (n + 1) len sink =
          .done (-1, sink)) ∧
      (∀ (q : Nat) (len : Int) (sink : List Notification),
        word16 payload 4 = q + 1 →
        dnsReadQueries fuel payload payloadLen 12 (payloadLen - 12) q
          (decide (word16 payload 2 &&& DNS_FLAG_RESPONSE = 0)) [] = .done (len, sink) →
        0 ≤ len → payloadLen - 12 - len = 6 →
        parse fuel payload payloadLen = .done (-1, sink)) ∧
      (∀ (k : Nat) (size : Int) (sq : List Notification) (len : Int) (sink : List Notification),
        word16 payload 6 = k + 1 →
        dnsReadQueries fuel payload payloadLen 12 (payloadLen - 12) (word16 payload 4)
          (decide (word16 payload 2 &&& DNS_FLAG_RESPONSE = 0)) [] = .done (size, sq) →
        0 ≤ size → 12 + size ≤ payloadLen →
        dnsReadAnswers fuel payload payloadLen (12 + size) (payloadLen - (12 + size))
          k sq = .done (len, sink) →
        0 ≤ len → payloadLen - (12 + size) - len = 12 →
        parse fuel payload payloadLen = .done (-1, sink)) := by
  refine ⟨?_, ?_, ?_, ?_⟩
  · intro ptr remaining emit n len sink h
    rw [queriesLoop, if_pos h]
  · intro ptr remaining n len sink h
    rw [answersLoop, if_pos h]
  · intro q len sink hq1 hfirst hok hrem
    rw [parse_header_eq fuel payload payloadLen hlen hbuf, if_neg (by simp [hop]),
      if_neg (by omega), if_pos (by omega), hq1]
    unfold dnsReadQueries at hfirst ⊢
    rw [queriesLoop_snoc _ _ _ _ _ _ _ _ _ _ _ hfirst hok, queriesLoop, if_pos (by omega)]
    rfl
  · intro k size sq len sink ha1 hqs h0 hfit hfirst hok hrem
    rw [parse_after_queries fuel payload payloadLen hlen hbuf hop hq ha size sq hqs h0 hfit,
      ha1]
    unfold parseAnswers
    rw [if_pos (by omega)]
    unfold dnsReadAnswers at hfirst ⊢
    rw [answersLoop_snoc _ _ _ _ _ _ _ _ _ _ hfirst hok, answersLoop, if_pos (by omega)]
    rfl

/-- The instance of C19 at `lastQueryExactMsg`, whose last query fills the last
6 bytes, and at `lastAnswerExactMsg`, whose answer fills the last 12 bytes. -/
theorem parse_record_needs_more_than_fixed_size_witness :
    parse 1 lastQueryExactMsg 25 = .done (-1, [Notification.ipv4 [97] [0, 0, 0, 0]]) ∧
      parse 1 lastAnswerExactMsg 31 = .done (-1, []) :=
  ⟨(parse_record_needs_more_than_fixed_size 1 lastQueryExactMsg 25 (by decide) (by decide)
      (by decide) (by decide) (by decide)).2.2.1 1 7 [Notification.ipv4 [97] [0, 0, 0, 0]]
      (by decide) rfl (by decide) (by decide),
    (parse_record_needs_more_than_fixed_size 1 lastAnswerExactMsg 31 (by decide) (by decide)
      (by decide) (by decide) (by decide)).2.2.2 0 7 [] 0 []
      (by decide) rfl (by decide) (by decide) rfl (by decide) (by decide)⟩

/-- C20. The root name is rejected: when the first record of a message (its
first query, or its first answer when no query is declared) has the root name,
as a single zero byte or as a compression pointer to a zero byte, `parse`
returns -1 and the listener receives nothing; `dnsReadName`, called at the zero
byte, returns 0. -/
theorem parse_root_name_rejected (fuel : Nat) (payload : List Nat) (payloadLen : Int)
    (nameOff : Nat) (hlen : 12 ≤ payloadLen) (hbuf : payloadLen ≤ payload.length)
    (hbytes : ∀ b ∈ payload, b < 256)
    (hop : DNS_FLAG_OPCODE (word16 payload 2) = 0)
    (hq : word16 payload 4 ≤ 4) (ha : word16 payload 6 ≤ 20)
    (hrec : 1 ≤ word16 payload 4 ∨ (word16 payload 4 = 0 ∧ 1 ≤ word16 payload 6))
    (hroot : (payload.getD 12 0 = 0 ∧ nameOff = 12) ∨
      (word16 payload 12 &&& 0xc000 = 0xc000 ∧ nameOff = word16 payload 12 &&& 0x3fff ∧
        payload.getD nameOff 0 = 0)) :
    parse (fuel + 1) payload payloadLen = .done (-1, []) ∧
      (1 ≤ nameOff → (nameOff : Int) < payloadLen →
        dnsReadName (fuel + 1) [] nameOff payload payloadLen = .done (0, [])) := by
  constructor
  · rw [parse_header_eq _ payload payloadLen hlen hbuf, if_neg (by simp [hop]),
      if_neg (by omega)]
    by_cases hz : word16 payload 4 > 0
    · obtain ⟨n, hn⟩ : ∃ n, word16 payload 4 = n + 1 := ⟨word16 payload 4 - 1, by omega⟩
      rw [if_pos hz, hn]
      unfold dnsReadQueries
      rw [queriesLoop]
      by_cases hrem : payloadLen - 12 - 0 ≤ 6
      · rw [if_pos hrem]
        rfl
      · obtain ⟨nm, hnm, hle⟩ := readRecordName_root fuel payload payloadLen nameOff
          (by omega) hbuf hbytes hroot
        rw [if_neg hrem]
        simp only [add_zero]
        rw [hnm]
        simp only [Run.bind_done]
        rw [if_pos hle]
        rfl
    · obtain ⟨n, hn⟩ : ∃ n, word16 payload 6 = n + 1 := ⟨word16 payload 6 - 1, by omega⟩
      rw [if_neg hz, hn]
      unfold parseAnswers dnsReadAnswers
      rw [if_pos (by omega), answersLoop]
      by_cases hrem : payloadLen - 12 - 0 ≤ 12
      · rw [if_pos hrem]
        rfl
      · obtain ⟨nm, hnm, hle⟩ := readRecordName_root fuel payload payloadLen nameOff
          (by omega) hbuf hbytes hroot
        rw [if_neg hrem]
        simp only [add_zero]
        rw [hnm]
        simp only [Run.bind_done]
        rw [if_pos hle]
        rfl
  · intro h1 h2
    have hz : payload.getD nameOff 0 = 0 := by
      rcases hroot with ⟨hz, hoff⟩ | ⟨_, _, hz⟩
      · rw [hoff]; exact hz
      · exact hz
    exact dnsReadName_root fuel nameOff payload payloadLen hbuf h1 h2 hz

/-- The instance of C20 at `rootInlineMsg`, a query named by a zero byte, and
at `rootPointerMsg`, an answer named by a pointer to a zero byte. -/
theorem parse_root_name_rejected_witness :
    (parse 1 rootInlineMsg 19 = .done (-1, []) ∧
      (1 ≤ 12 → ((12 : Nat) : Int) < 19 → dnsReadName 1 [] 12 rootInlineMsg 19 = .done (0, []))) ∧
    (parse 1 rootPointerMsg 28 = .done (-1, []) ∧
      (1 ≤ 11 → ((11 : Nat) : Int) < 28 → dnsReadName 1 [] 11 rootPointerMsg 28 = .done (0, []))) :=
  ⟨parse_root_name_rejected 0 rootInlineMsg 19 12 (by decide) (by decide) (by decide)
      (by decide) (by decide) (by decide) (Or.inl (by decide)) (Or.inl ⟨by decide, rfl⟩),
    parse_root_name_rejected 0 rootPointerMsg 28 11 (by decide) (by decide) (by decide)
      (by decide) (by decide) (by decide) (Or.inr ⟨by decide, by decide⟩)
      (Or.inr ⟨by decide, by decide, by decide⟩)⟩

end DnsParser
